import Mathlib

/-!
Verification of the PCVS job scheduling and execution engine.

This file gives a shallow embedding, in Lean 4, of the core of the PCVS
orchestrator: the hierarchical resource allocator
(`pcvs/helpers/resource_tracker.py`), the job pool manager
(`pcvs/orchestration/manager.py`), the job record and its predicates
(`pcvs/testing/test.py`, `pcvs/testing/teststate.py`), and the
runner/remote-context handoff (`pcvs/orchestration/runner.py`).

Python classes become Lean structures or inductives; mutating methods
become functions from state to state; exceptions become `Except`/`Option`
results.  Jobs are identified by their unique fully-qualified name: the
source keys its pools by `jid = md5(name)`, and keying by the name itself
is the same map under the standard no-collision reading.  Floating point
times are embedded as rationals: the code only assigns, compares and
copies them, it never does float arithmetic whose rounding could matter.
-/

/-! ## Resource tracker (`pcvs/helpers/resource_tracker.py`)

`RessourceTracker.__init__` builds, from `dims_values`, a tree whose
nodes store `self.dim = len(dims_values)`; a `dim = 0` tracker holds a
single slot `self.ressource` (0 = free, otherwise the owning allocation
id) and a `dim > 0` tracker holds `dims_values[0]` children.  The Python
object stores `dim` explicitly, so the embedding does too.  The `leaf`
constructor is the `dim == 0` case of the class (which has a `ressource`
attribute and no `ressources`), `node` is the `dim > 0` case.
-/

mutual
inductive RessourceTracker where
  | leaf (ressource : Nat)
  | node (dim : Nat) (ressources : RTList)
deriving DecidableEq, Repr
inductive RTList where
  | nil
  | cons (hd : RessourceTracker) (tl : RTList)
deriving DecidableEq, Repr
end

namespace RTList

/-- Length of a child list. -/
def length : RTList → Nat
  | .nil => 0
  | .cons _ tl => tl.length + 1

/-- `[RessourceTracker(dims_values[1:]) for _ in range(dims_values[0])]`. -/
def replicate (n : Nat) (t : RessourceTracker) : RTList :=
  match n with
  | 0 => .nil
  | n + 1 => .cons t (replicate n t)

end RTList

namespace RessourceTracker

/-- `self.dim` as stored by `__init__`. -/
def dim : RessourceTracker → Nat
  | .leaf _ => 0
  | .node d _ => d

/-- `RessourceTracker(dims_values)`: dim 0 gives a free slot, otherwise
`dims_values[0]` children each built from `dims_values[1:]`. -/
def make (dims_values : List Nat) : RessourceTracker :=
  match dims_values with
  | [] => .leaf 0
  | d :: rest => .node (rest.length + 1) (RTList.replicate d (make rest))

end RessourceTracker

mutual
/-- `RessourceTracker.free`: a dim-0 tracker clears its slot if it holds
`alloc_tracking_id`; otherwise every child is freed recursively. -/
def RessourceTracker.free : RessourceTracker → Nat → RessourceTracker
  | .leaf r, tid => if r = tid then .leaf 0 else .leaf r
  | .node d rs, tid => .node d (RTList.free rs tid)
/-- The `for ressource in self.ressources: ressource.free(...)` loop. -/
def RTList.free : RTList → Nat → RTList
  | .nil, _ => .nil
  | .cons hd tl, tid => .cons (hd.free tid) (RTList.free tl tid)
end

mutual
/-- `RessourceTracker.do_alloc(allocation, alloc_tracking_id)`, with the
mutation made explicit: the returned tracker is the state of `self` after
the call.  The three source branches are, in order: `alloc_dim < self.dim`
(try each child with the whole request, first success wins),
`alloc_dim == 0 and self.dim == 0` (claim a free slot), and
`alloc_dim == self.dim` (count successful children against
`allocation[0]`, rolling everything back on exhaustion).  The remaining
branch (`alloc_dim > self.dim`, unreachable from `alloc`) falls through
`Never.assert_never` to `return False` in the source. -/
def RessourceTracker.do_alloc :
    RessourceTracker → List Int → Nat → Bool × RessourceTracker
  | .leaf r, allocation, tid =>
    if allocation.length = 0 then
      if r = 0 then (true, .leaf tid) else (false, .leaf r)
    else (false, .leaf r)
  | .node d rs, allocation, tid =>
    if allocation.length < d then
      let r := RTList.first_fit rs allocation tid
      (r.1, .node d r.2)
    else if allocation.length = d then
      match allocation with
      | [] => (false, .node d rs)
      | alloc_ressources :: rest =>
        let r := RTList.count_fit rs 0 alloc_ressources rest tid
        if r.1 then (true, .node d r.2)
        else (false, .node d (RTList.free r.2 tid))
    else (false, .node d rs)
/-- The `alloc_dim < self.dim` loop: attempt each child in turn with the
full request, stopping at the first success. -/
def RTList.first_fit : RTList → List Int → Nat → Bool × RTList
  | .nil, _, _ => (false, .nil)
  | .cons hd tl, allocation, tid =>
    let r := hd.do_alloc allocation tid
    if r.1 then (true, .cons r.2 tl)
    else
      let r' := RTList.first_fit tl allocation tid
      (r'.1, .cons r.2 r'.2)
/-- The `alloc_dim == self.dim` counting loop: after each child attempt,
`count_ressources` is compared against `allocation[0]`; on a match the
call returns immediately, leaving later children untouched. -/
def RTList.count_fit : RTList → Int → Int → List Int → Nat → Bool × RTList
  | .nil, _, _, _, _ => (false, .nil)
  | .cons hd tl, count, target, rest, tid =>
    let r := hd.do_alloc rest tid
    let count' := if r.1 then count + 1 else count
    if count' = target then (true, .cons r.2 tl)
    else
      let r' := RTList.count_fit tl count' target rest tid
      (r'.1, .cons r.2 r'.2)
end

/-- The mutable pieces of tracker state: the tree itself plus the
class-level `RessourceTracker.alloc_tracking_counter`, initialized to 1. -/
structure TrackerState where
  tree : RessourceTracker
  counter : Nat
deriving DecidableEq, Repr

/-- `RessourceTracker.alloc`: reject requests deeper than the tree,
otherwise run `do_alloc` under the current counter, incrementing the
counter and returning it on success, returning 0 on failure. -/
def TrackerState.alloc (s : TrackerState) (allocation : List Int) :
    Nat × TrackerState :=
  if s.tree.dim < allocation.length then (0, s)
  else
    let tn := s.counter
    let r := s.tree.do_alloc allocation tn
    if r.1 then (tn, ⟨r.2, tn + 1⟩) else (0, ⟨r.2, tn⟩)

/-- A fresh tracker over `dims_values`, counter at its initial value 1. -/
def TrackerState.init (dims_values : List Nat) : TrackerState :=
  ⟨RessourceTracker.make dims_values, 1⟩

/-- `free` lifted to the tracker state. -/
def TrackerState.free (s : TrackerState) (tid : Nat) : TrackerState :=
  ⟨s.tree.free tid, s.counter⟩

/-! ### Tracker invariants

Reachable tracker states only hold ids strictly below the counter: the
counter starts at 1, only grows, and `do_alloc` writes the current
counter value into free slots.  This freshness is what makes the
roll-back of a failed allocation exact.
-/

mutual
/-- Does some slot of the tree hold allocation id `tid`? -/
def RessourceTracker.hasId : RessourceTracker → Nat → Bool
  | .leaf r, tid => r == tid
  | .node _ rs, tid => RTList.hasId rs tid
def RTList.hasId : RTList → Nat → Bool
  | .nil, _ => false
  | .cons hd tl, tid => hd.hasId tid || RTList.hasId tl tid
end

mutual
/-- Every slot value is below `c` (all issued ids are below the counter). -/
def RessourceTracker.allLt : RessourceTracker → Nat → Bool
  | .leaf r, c => decide (r < c)
  | .node _ rs, c => RTList.allLt rs c
def RTList.allLt : RTList → Nat → Bool
  | .nil, _ => true
  | .cons hd tl, c => hd.allLt c && RTList.allLt tl c
end

/-- Well-formedness of a tracker state: a positive counter bounding every
id stored in the tree.  Holds for `TrackerState.init` and is preserved by
`alloc` and `free`. -/
def TrackerState.wf (s : TrackerState) : Prop :=
  s.tree.allLt s.counter = true ∧ 0 < s.counter

instance (s : TrackerState) : Decidable s.wf := by
  unfold TrackerState.wf; infer_instance

mutual
theorem RessourceTracker.free_absent :
    ∀ (t : RessourceTracker) (tid : Nat), t.hasId tid = false → t.free tid = t
  | .leaf r, tid, h => by
      simp [RessourceTracker.hasId] at h
      simp [RessourceTracker.free, h]
  | .node d rs, tid, h => by
      simp [RessourceTracker.hasId] at h
      simp [RessourceTracker.free, RTList.free_absent_each rs tid h]
theorem RTList.free_absent_each :
    ∀ (l : RTList) (tid : Nat), l.hasId tid = false → l.free tid = l
  | .nil, _, _ => rfl
  | .cons hd tl, tid, h => by
      simp [RTList.hasId] at h
      simp [RTList.free, RessourceTracker.free_absent hd tid h.1,
        RTList.free_absent_each tl tid h.2]
end

mutual
theorem RessourceTracker.free_zero :
    ∀ (t : RessourceTracker), t.free 0 = t
  | .leaf r => by
      by_cases h : r = 0 <;> simp [RessourceTracker.free, h]
  | .node d rs => by
      simp [RessourceTracker.free, RTList.free_zero_each rs]
theorem RTList.free_zero_each : ∀ (l : RTList), l.free 0 = l
  | .nil => rfl
  | .cons hd tl => by
      simp [RTList.free, RessourceTracker.free_zero hd, RTList.free_zero_each tl]
end

mutual
theorem RessourceTracker.allLt_hasId :
    ∀ (t : RessourceTracker) (c : Nat), t.allLt c = true → t.hasId c = false
  | .leaf r, c, h => by
      simp [RessourceTracker.allLt] at h
      simp [RessourceTracker.hasId]
      omega
  | .node d rs, c, h => RTList.allLt_hasId_each rs c h
theorem RTList.allLt_hasId_each :
    ∀ (l : RTList) (c : Nat), l.allLt c = true → l.hasId c = false
  | .nil, _, _ => rfl
  | .cons hd tl, c, h => by
      simp [RTList.allLt] at h
      simp [RTList.hasId, RessourceTracker.allLt_hasId hd c h.1,
        RTList.allLt_hasId_each tl c h.2]
end

mutual
/-- Freeing the attempted id after any `do_alloc` attempt — successful or
not — restores the tree exactly, provided the id was fresh. -/
theorem RessourceTracker.free_do_alloc :
    ∀ (t : RessourceTracker) (a : List Int) (tid : Nat),
      t.hasId tid = false → ((t.do_alloc a tid).2).free tid = t
  | .leaf r, a, tid, h => by
      simp [RessourceTracker.hasId] at h
      by_cases hl : a.length = 0
      · by_cases hr : r = 0 <;>
          simp [RessourceTracker.do_alloc, hl, hr, RessourceTracker.free, h]
      · simp [RessourceTracker.do_alloc, hl, RessourceTracker.free, h]
  | .node d rs, a, tid, h => by
      simp [RessourceTracker.hasId] at h
      by_cases h1 : a.length < d
      · simp [RessourceTracker.do_alloc, h1, RessourceTracker.free,
          RTList.free_first_fit rs a tid h]
      · by_cases h2 : a.length = d
        · match a with
          | [] =>
            simp [RessourceTracker.do_alloc, h1, h2, RessourceTracker.free,
              RTList.free_absent_each rs tid h]
          | x :: rest =>
            by_cases h3 : (RTList.count_fit rs 0 x rest tid).1
            · simp [RessourceTracker.do_alloc, h1, h2, h3,
                RessourceTracker.free, RTList.free_count_fit rs 0 x rest tid h]
            · simp only [RessourceTracker.do_alloc, h1, h2, if_false, if_true,
                List.length_cons, Bool.false_eq_true, RessourceTracker.free]
              simp [h1, h2, h3, RessourceTracker.free,
                RTList.free_count_fit rs 0 x rest tid h,
                RTList.free_absent_each rs tid h]
        · simp [RessourceTracker.do_alloc, h1, h2, RessourceTracker.free,
            RTList.free_absent_each rs tid h]
theorem RTList.free_first_fit :
    ∀ (l : RTList) (a : List Int) (tid : Nat),
      l.hasId tid = false → ((RTList.first_fit l a tid).2).free tid = l
  | .nil, _, _, _ => rfl
  | .cons hd tl, a, tid, h => by
      simp [RTList.hasId] at h
      by_cases h1 : (hd.do_alloc a tid).1
      · simp [RTList.first_fit, h1, RTList.free,
          RessourceTracker.free_do_alloc hd a tid h.1,
          RTList.free_absent_each tl tid h.2]
      · simp [RTList.first_fit, h1, RTList.free,
          RessourceTracker.free_do_alloc hd a tid h.1,
          RTList.free_first_fit tl a tid h.2]
theorem RTList.free_count_fit :
    ∀ (l : RTList) (count target : Int) (rest : List Int) (tid : Nat),
      l.hasId tid = false →
      ((RTList.count_fit l count target rest tid).2).free tid = l
  | .nil, _, _, _, _, _ => rfl
  | .cons hd tl, count, target, rest, tid, h => by
      simp [RTList.hasId] at h
      by_cases h1 :
          (if (hd.do_alloc rest tid).1 then count + 1 else count) = target
      · simp [RTList.count_fit, h1, RTList.free,
          RessourceTracker.free_do_alloc hd rest tid h.1,
          RTList.free_absent_each tl tid h.2]
      · simp [RTList.count_fit, h1, RTList.free,
          RessourceTracker.free_do_alloc hd rest tid h.1,
          RTList.free_count_fit tl
            (if (hd.do_alloc rest tid).1 then count + 1 else count)
            target rest tid h.2]
end

mutual
theorem RessourceTracker.allLt_mono :
    ∀ (t : RessourceTracker) (c c' : Nat), t.allLt c = true → c ≤ c' →
      t.allLt c' = true
  | .leaf r, c, c', h, hc => by
      simp [RessourceTracker.allLt] at h ⊢; omega
  | .node d rs, c, c', h, hc => RTList.allLt_mono_each rs c c' h hc
theorem RTList.allLt_mono_each :
    ∀ (l : RTList) (c c' : Nat), l.allLt c = true → c ≤ c' →
      l.allLt c' = true
  | .nil, _, _, _, _ => rfl
  | .cons hd tl, c, c', h, hc => by
      simp [RTList.allLt] at h ⊢
      exact ⟨RessourceTracker.allLt_mono hd c c' h.1 hc,
        RTList.allLt_mono_each tl c c' h.2 hc⟩
end

mutual
theorem RessourceTracker.allLt_free :
    ∀ (t : RessourceTracker) (tid c : Nat), t.allLt c = true → 0 < c →
      (t.free tid).allLt c = true
  | .leaf r, tid, c, h, hc => by
      by_cases hr : r = tid <;>
        simp_all [RessourceTracker.free, RessourceTracker.allLt]
  | .node d rs, tid, c, h, hc => RTList.allLt_free_each rs tid c h hc
theorem RTList.allLt_free_each :
    ∀ (l : RTList) (tid c : Nat), l.allLt c = true → 0 < c →
      (l.free tid).allLt c = true
  | .nil, _, _, _, _ => rfl
  | .cons hd tl, tid, c, h, hc => by
      simp [RTList.allLt] at h ⊢
      simp [RTList.free, RTList.allLt,
        RessourceTracker.allLt_free hd tid c h.1 hc,
        RTList.allLt_free_each tl tid c h.2 hc]
end

mutual
/-- A `do_alloc` attempt with the counter as id keeps all slot values
below `counter + 1`. -/
theorem RessourceTracker.allLt_do_alloc :
    ∀ (t : RessourceTracker) (a : List Int) (tid c : Nat),
      t.allLt c = true → tid < c + 1 →
      ((t.do_alloc a tid).2).allLt (c + 1) = true
  | .leaf r, a, tid, c, h, htid => by
      simp [RessourceTracker.allLt] at h
      by_cases hl : a.length = 0
      · by_cases hr : r = 0 <;>
          simp [RessourceTracker.do_alloc, hl, hr, RessourceTracker.allLt] <;>
          omega
      · simp [RessourceTracker.do_alloc, hl, RessourceTracker.allLt]; omega
  | .node d rs, a, tid, c, h, htid => by
      by_cases h1 : a.length < d
      · simpa [RessourceTracker.do_alloc, h1, RessourceTracker.allLt] using
          RTList.allLt_first_fit rs a tid c h htid
      · by_cases h2 : a.length = d
        · match a with
          | [] =>
            simpa [RessourceTracker.do_alloc, h1, h2, RessourceTracker.allLt]
              using RTList.allLt_mono_each rs c (c + 1) h (by omega)
          | x :: rest =>
            by_cases h3 : (RTList.count_fit rs 0 x rest tid).1
            · simpa [RessourceTracker.do_alloc, h1, h2, h3,
                RessourceTracker.allLt] using
                RTList.allLt_count_fit rs 0 x rest tid c h htid
            · simp only [RessourceTracker.do_alloc, List.length_cons, h1, h2]
              simpa [h3, RessourceTracker.allLt] using
                RTList.allLt_free_each (RTList.count_fit rs 0 x rest tid).2 tid
                  (c + 1) (RTList.allLt_count_fit rs 0 x rest tid c h htid)
                  (by omega)
        · simpa [RessourceTracker.do_alloc, h1, h2, RessourceTracker.allLt]
            using RTList.allLt_mono_each rs c (c + 1) h (by omega)
theorem RTList.allLt_first_fit :
    ∀ (l : RTList) (a : List Int) (tid c : Nat),
      l.allLt c = true → tid < c + 1 →
      ((RTList.first_fit l a tid).2).allLt (c + 1) = true
  | .nil, _, _, _, _, _ => rfl
  | .cons hd tl, a, tid, c, h, htid => by
      simp [RTList.allLt] at h
      by_cases h1 : (hd.do_alloc a tid).1
      · simp [RTList.first_fit, h1, RTList.allLt,
          RessourceTracker.allLt_do_alloc hd a tid c h.1 htid,
          RTList.allLt_mono_each tl c (c + 1) h.2 (by omega)]
      · simp [RTList.first_fit, h1, RTList.allLt,
          RessourceTracker.allLt_do_alloc hd a tid c h.1 htid,
          RTList.allLt_first_fit tl a tid c h.2 htid]
theorem RTList.allLt_count_fit :
    ∀ (l : RTList) (count target : Int) (rest : List Int) (tid c : Nat),
      l.allLt c = true → tid < c + 1 →
      ((RTList.count_fit l count target rest tid).2).allLt (c + 1) = true
  | .nil, _, _, _, _, _, _, _ => rfl
  | .cons hd tl, count, target, rest, tid, c, h, htid => by
      simp [RTList.allLt] at h
      by_cases h1 :
          (if (hd.do_alloc rest tid).1 then count + 1 else count) = target
      · simp [RTList.count_fit, h1, RTList.allLt,
          RessourceTracker.allLt_do_alloc hd rest tid c h.1 htid,
          RTList.allLt_mono_each tl c (c + 1) h.2 (by omega)]
      · simp [RTList.count_fit, h1, RTList.allLt,
          RessourceTracker.allLt_do_alloc hd rest tid c h.1 htid,
          RTList.allLt_count_fit tl
            (if (hd.do_alloc rest tid).1 then count + 1 else count)
            target rest tid c h.2 htid]
end

mutual
/-- A failed `do_alloc` attempt with a fresh id leaves the tree exactly
as it was: the roll-back is complete, no partially claimed slot leaks. -/
theorem RessourceTracker.do_alloc_fail :
    ∀ (t : RessourceTracker) (a : List Int) (tid : Nat),
      t.hasId tid = false → (t.do_alloc a tid).1 = false →
      (t.do_alloc a tid).2 = t
  | .leaf r, a, tid, h, hf => by
      simp [RessourceTracker.hasId] at h
      by_cases hl : a.length = 0
      · by_cases hr : r = 0 <;>
          simp_all [RessourceTracker.do_alloc, hl, hr]
      · simp [RessourceTracker.do_alloc, hl]
  | .node d rs, a, tid, h, hf => by
      simp [RessourceTracker.hasId] at h
      by_cases h1 : a.length < d
      · simp only [RessourceTracker.do_alloc, h1, if_true] at hf ⊢
        simp [RTList.first_fit_fail rs a tid h hf]
      · by_cases h2 : a.length = d
        · match a with
          | [] => simp [RessourceTracker.do_alloc, h1, h2]
          | x :: rest =>
            by_cases h3 : (RTList.count_fit rs 0 x rest tid).1
            · simp [RessourceTracker.do_alloc, h1, h2, h3] at hf
            · simp only [RessourceTracker.do_alloc, List.length_cons, h1, h2]
              simp [h3, RTList.free_count_fit rs 0 x rest tid h]
        · simp [RessourceTracker.do_alloc, h1, h2]
theorem RTList.first_fit_fail :
    ∀ (l : RTList) (a : List Int) (tid : Nat),
      l.hasId tid = false → (RTList.first_fit l a tid).1 = false →
      (RTList.first_fit l a tid).2 = l
  | .nil, _, _, _, _ => rfl
  | .cons hd tl, a, tid, h, hf => by
      simp [RTList.hasId] at h
      by_cases h1 : (hd.do_alloc a tid).1
      · simp [RTList.first_fit, h1] at hf
      · simp only [RTList.first_fit, h1, if_false, Bool.false_eq_true] at hf ⊢
        simp [RessourceTracker.do_alloc_fail hd a tid h.1 (by simpa using h1),
          RTList.first_fit_fail tl a tid h.2 hf]
end

/-- A failed `alloc` (result 0) leaves the whole tracker state — tree and
counter — exactly as it was. -/
theorem TrackerState.alloc_fail_eq (s : TrackerState) (a : List Int)
    (hwf : s.wf) (hfail : (s.alloc a).1 = 0) : (s.alloc a).2 = s := by
  obtain ⟨t, c⟩ := s
  have hlt : t.allLt c = true := hwf.1
  have hc : 0 < c := hwf.2
  simp only [TrackerState.alloc] at hfail ⊢
  by_cases hdim : t.dim < a.length
  · simp [hdim]
  · have hfresh : t.hasId c = false := RessourceTracker.allLt_hasId t c hlt
    by_cases hok : (t.do_alloc a c).1
    · simp [hdim, hok] at hfail; omega
    · simp only [hdim, if_false]
      simp [hok, RessourceTracker.do_alloc_fail t a c hfresh
        (by simpa using hok)]

/-- `alloc` immediately followed by `free` of whatever it returned. -/
def TrackerState.allocFree (s : TrackerState) (a : List Int) : TrackerState :=
  let r := s.alloc a
  r.2.free r.1

/-- One alloc/free pair restores the tree exactly and preserves
well-formedness. -/
theorem TrackerState.allocFree_tree (s : TrackerState) (a : List Int)
    (hwf : s.wf) : (s.allocFree a).tree = s.tree ∧ (s.allocFree a).wf := by
  obtain ⟨t, c⟩ := s
  have hlt : t.allLt c = true := hwf.1
  have hc : 0 < c := hwf.2
  have hfresh : t.hasId c = false := RessourceTracker.allLt_hasId t c hlt
  simp only [TrackerState.allocFree, TrackerState.alloc, TrackerState.free]
  by_cases hdim : t.dim < a.length
  · simp [hdim, RessourceTracker.free_zero, TrackerState.wf, hlt, hc]
  · by_cases hok : (t.do_alloc a c).1
    · simp only [hdim, if_false, hok, if_true]
      constructor
      · exact RessourceTracker.free_do_alloc t a c hfresh
      · refine ⟨?_, Nat.succ_pos c⟩
        simp only [RessourceTracker.free_do_alloc t a c hfresh]
        exact RessourceTracker.allLt_mono t c (c + 1) hlt (by omega)
    · simp only [hdim, if_false]
      simp only [hok]
      rw [RessourceTracker.do_alloc_fail t a c hfresh (by simpa using hok)]
      simp [RessourceTracker.free_zero, TrackerState.wf, hlt, hc]

/-- Any sequence of alloc/free pairs returns the tree to its starting
point. -/
theorem TrackerState.allocFree_foldl (l : List (List Int)) (s : TrackerState)
    (hwf : s.wf) : (l.foldl TrackerState.allocFree s).tree = s.tree := by
  induction l generalizing s with
  | nil => rfl
  | cons a rest ih =>
      obtain ⟨htree, hwf'⟩ := TrackerState.allocFree_tree s a hwf
      simpa [List.foldl_cons, htree] using ih (s.allocFree a) hwf'

/-! ### Claims about the resource tracker -/

/-- C1 (counterexample): on `RessourceTracker([2,2])`, after two
`alloc([1,1])` calls succeed with ids 1 and 2 — both still held — a third
`alloc([1,1])` does not fail: it returns id 3, not 0.  The tree has four
leaves and `[1,1]` claims a single leaf, so the claim that the third call
returns 0 is false. -/
theorem claim1_counterexample :
    ((TrackerState.init [2, 2]).alloc [1, 1]).1 = 1
    ∧ (((TrackerState.init [2, 2]).alloc [1, 1]).2.alloc [1, 1]).1 = 2
    ∧ ((((TrackerState.init [2, 2]).alloc [1, 1]).2.alloc [1, 1]).2.alloc
        [1, 1]).1 = 3
    ∧ ¬((((TrackerState.init [2, 2]).alloc [1, 1]).2.alloc [1, 1]).2.alloc
        [1, 1]).1 = 0 := by
  decide

/-- C1 (amended): on a `ResourceTracker` built with dims `[2,2]`, two
successive `alloc([1,1])` calls succeed with the distinct non-zero ids 1
and 2; a third and a fourth `alloc([1,1])` also succeed (ids 3 and 4, one
per remaining leaf); a fifth `alloc([1,1])` fails (returns 0) while the
four ids are held — and from that very state it keeps failing without a
`free` — but after `free` of the first id a further `alloc([1,1])`
succeeds again (id 5). -/
theorem claim1_amended :
    ((TrackerState.init [2, 2]).alloc [1, 1]).1 = 1
    ∧ (((TrackerState.init [2, 2]).alloc [1, 1]).2.alloc [1, 1]).1 = 2
    ∧ ((((TrackerState.init [2, 2]).alloc [1, 1]).2.alloc [1, 1]).2.alloc
        [1, 1]).1 = 3
    ∧ (((((TrackerState.init [2, 2]).alloc [1, 1]).2.alloc [1, 1]).2.alloc
        [1, 1]).2.alloc [1, 1]).1 = 4
    ∧ ((((((TrackerState.init [2, 2]).alloc [1, 1]).2.alloc [1, 1]).2.alloc
        [1, 1]).2.alloc [1, 1]).2.alloc [1, 1]).1 = 0
    ∧ (((((((TrackerState.init [2, 2]).alloc [1, 1]).2.alloc [1, 1]).2.alloc
        [1, 1]).2.alloc [1, 1]).2.alloc [1, 1]).2.alloc [1, 1]).1 = 0
    ∧ ((((((((TrackerState.init [2, 2]).alloc [1, 1]).2.alloc
        [1, 1]).2.alloc [1, 1]).2.alloc [1, 1]).2.alloc [1, 1]).2.free
        ((TrackerState.init [2, 2]).alloc [1, 1]).1).alloc [1, 1]).1 = 5
    ∧ ¬((((((((TrackerState.init [2, 2]).alloc [1, 1]).2.alloc
        [1, 1]).2.alloc [1, 1]).2.alloc [1, 1]).2.alloc [1, 1]).2.free
        ((TrackerState.init [2, 2]).alloc [1, 1]).1).alloc [1, 1]).1 = 0 := by
  decide

/-- C6: a failed `alloc` leaves the tracker exactly as before the call
(the roll-back of the attempt is complete); any sequence of alloc/free
pairs started from a well-formed state returns the tree to its starting
point (in particular an all-free tracker returns to all-free); and on a
`[2,2]` tracker `alloc([2,2])` claims all four leaves under the single
returned id when it succeeds, while after a prior `[1,1]` allocation it
fails with the state left untouched. -/
theorem claim6_alloc_rollback :
    (∀ (s : TrackerState) (a : List Int), s.wf →
        (s.alloc a).1 = 0 → (s.alloc a).2 = s)
    ∧ (∀ (l : List (List Int)) (s : TrackerState), s.wf →
        (l.foldl TrackerState.allocFree s).tree = s.tree)
    ∧ (((TrackerState.init [2, 2]).alloc [2, 2]).1 = 1
        ∧ ((TrackerState.init [2, 2]).alloc [2, 2]).2.tree
            = .node 2 (.cons (.node 1 (.cons (.leaf 1) (.cons (.leaf 1) .nil)))
                (.cons (.node 1 (.cons (.leaf 1) (.cons (.leaf 1) .nil)))
                  .nil)))
    ∧ ((((TrackerState.init [2, 2]).alloc [1, 1]).2.alloc [2, 2]).1 = 0
        ∧ (((TrackerState.init [2, 2]).alloc [1, 1]).2.alloc [2, 2]).2
            = ((TrackerState.init [2, 2]).alloc [1, 1]).2) :=
  ⟨TrackerState.alloc_fail_eq, TrackerState.allocFree_foldl,
    ⟨by decide, by decide⟩, ⟨by decide, by decide⟩⟩

/-- C6 witness: the universally quantified parts of
`claim6_alloc_rollback` applied to concrete inputs — an `alloc([3])` that
fails on a fresh `[2,2]` tracker leaves it untouched, and a two-request
alloc/free sequence restores the all-free tree. -/
theorem claim6_witness :
    ((TrackerState.init [2, 2]).alloc [3]).2 = TrackerState.init [2, 2]
    ∧ (([[2, 2], [1, 1]] : List (List Int)).foldl TrackerState.allocFree
        (TrackerState.init [2, 2])).tree = (TrackerState.init [2, 2]).tree :=
  ⟨claim6_alloc_rollback.1 (TrackerState.init [2, 2]) [3] (by decide)
      (by decide),
    claim6_alloc_rollback.2.1 [[2, 2], [1, 1]] (TrackerState.init [2, 2])
      (by decide)⟩

/-! ## Job state machine (`pcvs/testing/teststate.py`) -/

/-- `TestState`: the job lifecycle states. -/
inductive TestState where
  | WAITING
  | IN_PROGRESS
  | EXECUTED
  | SUCCESS
  | FAILURE
  | SOFT_TIMEOUT
  | HARD_TIMEOUT
  | ERR_DEP
  | ERR_OTHER
deriving DecidableEq, Repr

/-- `TestState.bad_states`: the states that represent a FAILED test. -/
def TestState.bad_states : List TestState :=
  [.ERR_DEP, .ERR_OTHER, .FAILURE, .HARD_TIMEOUT]

/-! ## Jobs (`pcvs/testing/test.py`)

A `Test` object is embedded as a record of its runtime-relevant fields.
Python object references between jobs (`_deps`, `_dependee`) are
represented by the referenced job's unique fully-qualified name, and a
`store : String → Job` gives the current state of every job object; a
Python attribute mutation becomes a pointwise store update.  Fields the
claims never touch (combination, metrics, artifacts, environment, working
directory, package-manager deps) are omitted.  Time-typed fields
(`_exectime`, timeouts) are rationals, see the file header. -/
structure Job where
  /-- `_fq_name` (also the store key of this job object). -/
  name : String
  /-- `basename`: the dependency-pattern bucket key of this job. -/
  basename : String
  /-- `_tags`. -/
  tags : List String
  /-- `_resources` (`needed_resources`). -/
  resources : List Int
  /-- `_depnames`: unresolved dependency names. -/
  job_depnames : List String
  /-- `_deps`: resolved dependency objects, by name. -/
  job_deps : List String
  /-- `_dependee`: jobs depending on this one, by name. -/
  dependee : List String
  /-- `_state`. -/
  state : TestState
  /-- `alloc_tracking`. -/
  alloc_tracking : Nat
  /-- `_rc`. -/
  rc : Int
  /-- `_exectime`. -/
  exectime : Rat
  /-- `_output` (captured stdout/stderr, as a string). -/
  output : String
  /-- `_has_hard_timeout`. -/
  has_hard_timeout : Bool
  /-- `_expect_rc` (`validation.get("expect_exit", 0)`). -/
  expect_rc : Int
  /-- `_soft_timeout` (the field, not the property). -/
  soft_timeout_field : Option Rat
  /-- `_hard_timeout` (the field, not the property). -/
  hard_timeout_field : Option Rat
  /-- `_matchers`: `validation.get("match", None)`, each matcher reduced
  to its `expr` string and the truth of `v.get("expect", True) is True`. -/
  matchers : Option (List (String × Bool))
  /-- `_analysis`: present or `None` (its content only reaches plugins). -/
  analysis : Option Unit
  /-- `_script`: `validation.get("script", {}).get("path", None)`. -/
  script : Option String

/-- `Test.been_executed`: the state has left
`{WAITING, IN_PROGRESS, EXECUTED}`. -/
def Job.been_executed (j : Job) : Bool :=
  decide (j.state ∉ [TestState.WAITING, TestState.IN_PROGRESS,
    TestState.EXECUTED])

/-- `Test.has_completed_deps`:
`len([d for d in self._deps if not d.been_executed()]) == 0`. -/
def Job.has_completed_deps (store : String → Job) (j : Job) : Bool :=
  (j.job_deps.filter (fun d => !(store d).been_executed)).length = 0

/-- `Test.has_failed_dep`: some dep's state is in `bad_states`. -/
def Job.has_failed_dep (store : String → Job) (j : Job) : Bool :=
  j.job_deps.any (fun d => (store d).state ∈ TestState.bad_states)

/-- `Test.get_nb_nodes`: `self._resources[0]` when the list is non-empty,
else 1. -/
def Job.get_nb_nodes (j : Job) : Int :=
  match j.resources with
  | [] => 1
  | r :: _ => r

/-- The body of `Test.should_run`'s `run_filter` loop, given the job's
tags, the remaining `(tag, allow)` items, and the
`contain_allow_filter` accumulator. -/
def run_filter_loop (tags : List String) :
    List (String × Bool) → Bool → Bool
  | [], contain_allow_filter => !contain_allow_filter
  | (t, allow) :: rest, contain_allow_filter =>
    if allow then
      if tags.contains t then true else run_filter_loop tags rest true
    else
      if tags.contains t then false
      else run_filter_loop tags rest contain_allow_filter
/-- `Test.should_run`: a job with a dependee always runs; otherwise the
ordered `validation.run_filter` entries decide (an `allow` entry matching
a tag accepts, a deny entry matching rejects; if any allow entry exists,
everything unmatched is rejected, else accepted).  `run_filter` is the
`GlobalConfig.root["validation"]["run_filter"]` mapping, in iteration
order. -/
def Job.should_run (run_filter : List (String × Bool)) (j : Job) : Bool :=
  if j.dependee.length > 0 then true
  else run_filter_loop j.tags run_filter false

/-- `Test.pick`: flag the job as `IN_PROGRESS`. -/
def Job.pick (j : Job) : Job := { j with state := .IN_PROGRESS }

/-- `Test.save_status`. -/
def Job.save_status (j : Job) (state : TestState) : Job :=
  { j with state := state }

/-- `Test.save_raw_run`: overwrite output/rc/time when given, and always
overwrite `_has_hard_timeout`. -/
def Job.save_raw_run (j : Job) (out : Option String) (rc : Option Int)
    (time : Option Rat) (hard_timeout : Bool) : Job :=
  { j with
    output := out.getD j.output
    rc := rc.getD j.rc
    exectime := time.getD j.exectime
    has_hard_timeout := hard_timeout }

/-- `Test.save_final_result`: save the raw run (with the default
`hard_timeout=False`), then the state — the given one, or
SUCCESS/FAILURE from the return-code comparison when none is given.
`save_artifacts` only re-reads artifact files and is omitted with them. -/
def Job.save_final_result (j : Job) (rc : Int) (time : Rat) (out : String)
    (state : Option TestState) : Job :=
  let st := match state with
    | none => if j.expect_rc = rc then TestState.SUCCESS else TestState.FAILURE
    | some s => s
  (j.save_raw_run (some out) (some rc) (some time) false).save_status st

/-- Modelled from the spec: `Test.first_incomplete_dep` is called by
`Manager.__default_create_subset` but its definition is not under `src/`.
Per §4.2 the scheduler walks the dependency chain to the deepest
still-incomplete dependency; this models the single step: the first
resolved dep that has not yet been executed, if any. -/
def Job.first_incomplete_dep (store : String → Job) (j : Job) :
    Option String :=
  j.job_deps.find? (fun d => !(store d).been_executed)

/-- Pointwise store update: the effect of mutating the job object named
`n`. -/
def upd (store : String → Job) (n : String) (j : Job) : String → Job :=
  fun m => if m = n then j else store m

/-! ## Sets (`pcvs.orchestration.set`)

Modelled from the spec: `pcvs/orchestration/set.py` is not under `src/`
(only its importers are).  Per §2/§3 a Set is a transient batch of jobs
sharing one `ExecMode` with an `add` operation; the default scheduler
creates `Set(execmode=Set.ExecMode.LOCAL)` and adds jobs to it.  Members
are job names, in insertion order. -/
inductive ExecMode where
  | LOCAL
  | ALLOC
  | REMOTE
  | BATCH
deriving DecidableEq, Repr

structure JobSet where
  execmode : ExecMode
  content : List String
deriving DecidableEq, Repr

/-- Modelled from the spec: `Set.add` appends a job to the batch. -/
def JobSet.add (s : JobSet) (n : String) : JobSet :=
  { s with content := s.content ++ [n] }

/-! ## Manager (`pcvs/orchestration/manager.py`)

The Manager's mutable state: the `jobs` dict (a `store` for the objects
plus the insertion-ordered key list `jobs`), the records handed to the
publisher by `publish_job`, and the two counters.  The communication
channel (`_comman`), console output (`display`) and the publisher object
itself are external side effects; the `published` list records the
`(job, state)` pairs saved, in order. -/
structure Manager where
  store : String → Job
  jobs : List String
  published : List (String × TestState)
  count_total : Int
  count_executed : Int

/-- `Manager.__add_job`: `self.jobs[job.jid] = job`.  A dict assignment
keeps the position of an existing key and appends a new one. -/
def Manager.add_job_entry (m : Manager) (n : String) : Manager :=
  if n ∈ m.jobs then m else { m with jobs := m.jobs ++ [n] }

/-- `Manager.publish_job` after `save_final_result` — the effect of
`publish_failed_to_run_job(job, out, state)`: store the synthetic result
on the job, count it as executed, and hand it to the publisher. -/
def Manager.publish_failed_to_run_job (m : Manager) (n : String)
    (out : String) (state : TestState) : Manager :=
  let j := (m.store n).save_final_result (-1) 0 out (some state)
  { m with
    store := upd m.store n j
    published := m.published ++ [(n, j.state)]
    count_executed := m.count_executed + 1 }

/-- `Test.transpose_deps` for the job named `n`: append `n` to the
dependee list of each of its deps, in order. -/
def Manager.transpose_deps_of (store : String → Job) (n : String) :
    String → Job :=
  (store n).job_deps.foldl
    (fun st d => upd st d { st d with dependee := (st d).dependee ++ [n] })
    store

/-- `Manager._transpose_dep_graph`: transpose every pool job in pool
order. -/
def Manager.transpose_dep_graph (m : Manager) : Manager :=
  { m with store := m.jobs.foldl Manager.transpose_deps_of m.store }

/-- `Test.remove_test_from_deps` for the job named `n`: remove `n` from
the dependee list of each of its deps (`list.remove`: first
occurrence). -/
def Manager.remove_test_from_deps (store : String → Job) (n : String) :
    String → Job :=
  (store n).job_deps.foldl
    (fun st d => upd st d { st d with dependee := (st d).dependee.erase n })
    store

/-- The scan of `Manager.filter_tags`' inner `for` loop: first pool job
(in dict order) whose `should_run()` is false. -/
def Manager.filter_scan (run_filter : List (String × Bool))
    (store : String → Job) : List String → Option String
  | [] => none
  | n :: ns =>
    if (store n).should_run run_filter then filter_scan run_filter store ns
    else some n

/-- `Manager.filter_tags`.  The source iterates `self.jobs.items()` and
calls `self.jobs.pop(jid)` inside that iteration; in CPython the next
step of a dict iterator after the dict changed size raises
`RuntimeError: dictionary changed size during iteration`.  So the call
either completes one full scan removing nothing, or removes the first
job whose `should_run()` is false (after stripping it from its deps'
dependee lists and decrementing the total) and then raises.  The Bool
result records whether `RuntimeError` was raised. -/
def Manager.filter_tags (run_filter : List (String × Bool)) (m : Manager) :
    Manager × Bool :=
  let m1 := m.transpose_dep_graph
  match Manager.filter_scan run_filter m1.store m1.jobs with
  | none => (m1, false)
  | some n =>
    ({ m1 with
        store := Manager.remove_test_from_deps m1.store n
        jobs := m1.jobs.erase n
        count_total := m1.count_total - 1 }, true)

/-- `Manager.__get_next_job`'s selection:
`sorted(items, key=nb_nodes, reverse=True)[0]` — the first pool job (in
dict order) with the maximal `get_nb_nodes()` (Python's sort is stable) —
removed from the remaining pool. -/
def Manager.extract_max (store : String → Job) :
    List String → Option (String × List String)
  | [] => none
  | n :: ns =>
    match extract_max store ns with
    | none => some (n, ns)
    | some (m, ms) =>
      if (store n).get_nb_nodes < (store m).get_nb_nodes then some (m, n :: ms)
      else some (n, ns)

theorem Manager.extract_max_length (store : String → Job) :
    ∀ (l : List String) (n : String) (rest : List String),
      Manager.extract_max store l = some (n, rest) →
      rest.length + 1 = l.length
  | [], n, rest, h => by simp [Manager.extract_max] at h
  | x :: xs, n, rest, h => by
    simp only [Manager.extract_max] at h
    cases hx : Manager.extract_max store xs with
    | none =>
      rw [hx] at h
      cases h
      rfl
    | some p =>
      obtain ⟨m', ms⟩ := p
      rw [hx] at h
      by_cases hlt : (store x).get_nb_nodes < (store m').get_nb_nodes
      · simp only [hlt, if_true] at h
        cases h
        simpa using Manager.extract_max_length store xs n ms hx
      · simp only [hlt, if_false] at h
        cases h
        rfl

/-- The `while dep_job and not dep_job.has_completed_deps()` walk of
`__default_create_subset`, starting from a `first_incomplete_dep`
result.  The walk follows object references and the source gives no
bound, so it takes explicit fuel; exhausted fuel is reported as `none`
(the "dep is already being executed" outcome).  Theorems quantify over
the fuel. -/
def Manager.dep_walk (store : String → Job) :
    Nat → Option String → Option String
  | _, none => none
  | 0, some _ => none
  | fuel + 1, some d =>
    if (store d).has_completed_deps store then some d
    else dep_walk store fuel ((store d).first_incomplete_dep store)

/-- `Test.NOSTART_STR`. -/
def NOSTART_STR : String := "This test cannot be started."

/-- `Test.DISCARDED_STR`. -/
def DISCARDED_STR : String := "This test has failed to be scheduled. Discarded."

/-- The candidate-processing tail of the loop body of
`Manager.__default_create_subset` (from `if job.has_failed_dep()` to the
end of the `while` body), for the selected candidate `cand` — the popped
job itself or a walked-to incomplete dependency — in the default
configuration (no `SCHED_JOB_EVAL` plugin, so `pick_job` is decided by
the tracker allocation).  `.inl mc` is the `continue` after publishing
`cand` as `ERR_DEP` (tracker and reschedule buffer unchanged); `.inr`
is a `break`, carrying the scheduled Set (if any), the manager, the
tracker, and `to_resched_jobs` as left by the loop.  In the source
`scheduled_set` stays `None` until the one `scheduled_set.add(job)` that
is immediately followed by `break`, so the Set under construction needs
no loop parameter. -/
def Manager.default_subset_try (m1 : Manager) (tracker : TrackerState)
    (resched1 : List String) (cand : String) :
    Sum Manager (Option JobSet × Manager × TrackerState × List String) :=
  if (m1.store cand).has_failed_dep m1.store then
    -- publish as ERR_DEP and look for another job: `continue`
    .inl (m1.publish_failed_to_run_job cand NOSTART_STR .ERR_DEP)
  else
    let ar := tracker.alloc (m1.store cand).resources
    let pick_job := decide (0 < ar.1)
    let cj := { m1.store cand with alloc_tracking := ar.1 }
    let m2 := if pick_job then { m1 with store := upd m1.store cand cj }
      else m1
    if (m2.store cand).state ≠ TestState.IN_PROGRESS ∧ pick_job then
      -- pick the job into a fresh LOCAL Set and `break`
      .inr (some ((JobSet.mk .LOCAL []).add cand),
        { m2 with store := upd m2.store cand ((m2.store cand).pick) },
        ar.2, resched1)
    else
      -- allocation failed (or job already running): buffer and `break`
      .inr (none, m2, ar.2, resched1 ++ [cand])

/-- The `while (job := self.__get_next_job()) is not None` scan of
`Manager.__default_create_subset`: pop the next job, drop it if not
`WAITING`, otherwise select the candidate (the job itself or — after
buffering the popped job for reschedule — a walked-to incomplete
dependency) and process it with `default_subset_try`, continuing the scan
on its `.inl` outcome.  Returns the scheduled Set (if any), the manager
and tracker after the scan, and `to_resched_jobs`.

Every iteration pops exactly one pool entry, so the loop runs at most
`jobs.length` times; `gas` is structural-recursion gas consumed once per
iteration, and `default_create_subset` passes `jobs.length`, making the
gas-exhausted base case unreachable.  A walked-to dependency candidate
was never popped, so it stays in the pool even when scheduled or
published. -/
def Manager.default_subset_go (walk_fuel : Nat) (gas : Nat) (m : Manager)
    (tracker : TrackerState) (to_resched_jobs : List String) :
    Option JobSet × Manager × TrackerState × List String :=
  match gas with
  | 0 => (none, m, tracker, to_resched_jobs)
  | gas + 1 =>
    match Manager.extract_max m.store m.jobs with
    | none => (none, m, tracker, to_resched_jobs)
    | some (n, rest) =>
      let m1 : Manager := { m with jobs := rest }
      if (m1.store n).state ≠ TestState.WAITING then
        -- test not ready to be run: `continue` (the popped job is dropped)
        Manager.default_subset_go walk_fuel gas m1 tracker to_resched_jobs
      else
        if (m1.store n).has_completed_deps m1.store then
          match Manager.default_subset_try m1 tracker to_resched_jobs n with
          | .inl mc =>
            Manager.default_subset_go walk_fuel gas mc tracker
              to_resched_jobs
          | .inr r => r
        else
          -- pending deps: buffer the job and walk to a schedulable dep
          match Manager.dep_walk m1.store walk_fuel
              ((m1.store n).first_incomplete_dep m1.store) with
          | none =>
            -- the dep is already being executed: `continue`
            Manager.default_subset_go walk_fuel gas m1 tracker
              (to_resched_jobs ++ [n])
          | some d =>
            match Manager.default_subset_try m1 tracker
                (to_resched_jobs ++ [n]) d with
            | .inl mc =>
              Manager.default_subset_go walk_fuel gas mc tracker
                (to_resched_jobs ++ [n])
            | .inr r => r

/-- `Manager.__default_create_subset`: run the scan, then re-add every
`to_resched_jobs` entry to the pool (`self.__add_job(j)`). -/
def Manager.default_create_subset (walk_fuel : Nat) (m : Manager)
    (resources_tracker : TrackerState) :
    Option JobSet × Manager × TrackerState :=
  let r := Manager.default_subset_go walk_fuel m.jobs.length m
    resources_tracker []
  (r.1, r.2.2.2.foldl Manager.add_job_entry r.2.1, r.2.2.1)

/-! ### Concrete scheduling scenarios

`job_template` is a job as `Test.__init__` leaves it at runtime default
settings: no deps, `WAITING`, empty result fields, default resources
`[1, cores_per_nodes]` with one core per node, `expect_exit` 0 and no
timeout/matcher/analysis/script validation.  `mkStore` builds a store
from a list of jobs keyed by name. -/
def job_template : Job := {
  name := "", basename := "", tags := [], resources := [1, 1],
  job_depnames := [], job_deps := [], dependee := [], state := .WAITING,
  alloc_tracking := 0, rc := 0, exectime := 0, output := "",
  has_hard_timeout := false, expect_rc := 0, soft_timeout_field := none,
  hard_timeout_field := none, matchers := none, analysis := none,
  script := none }

def mkStore (l : List Job) : String → Job :=
  fun n => (l.find? (fun j => j.name == n)).getD job_template

/-! ### Claims about the default scheduling algorithm -/

/-- C2 (counterexample): pool of two dep-free WAITING jobs on a fresh
`[2,2]` tracker — job `a` needs `[3]` (unallocatable), job `b` needs
`[1]` (allocatable, as witnessed by the third conjunct).  The scan picks
`a` first (larger primary need); its allocation fails, and contrary to
the claim the loop does not continue to examine `b`: no Set is returned
at all, both jobs are simply back in the pool. -/
theorem claim2_counterexample :
    (Manager.default_create_subset 5
      ⟨mkStore [{ job_template with name := "a", resources := [3] },
                { job_template with name := "b", resources := [1] }],
        ["a", "b"], [], 2, 0⟩
      (TrackerState.init [2, 2])).1 = none
    ∧ (Manager.default_create_subset 5
      ⟨mkStore [{ job_template with name := "a", resources := [3] },
                { job_template with name := "b", resources := [1] }],
        ["a", "b"], [], 2, 0⟩
      (TrackerState.init [2, 2])).2.1.jobs = ["b", "a"]
    ∧ ((TrackerState.init [2, 2]).alloc [1]).1 ≠ 0 := by
  refine ⟨by rfl, by rfl, by decide⟩

/-- C2 (amended): in the default scheduling algorithm, when the
ResourceTracker allocation for the selected candidate fails, no error is
raised and the job is appended to the reschedule buffer, but the scan
stops (`break`) instead of continuing over the remaining candidates: the
call returns no Set, publishes nothing, leaves every job object
unchanged, and the failed candidate is re-added to the pool for a later
round. -/
theorem claim2_amended (walk_fuel : Nat) (m : Manager)
    (tracker : TrackerState) (n : String) (rest : List String)
    (hext : Manager.extract_max m.store m.jobs = some (n, rest))
    (hw : (m.store n).state = TestState.WAITING)
    (hdeps : (m.store n).job_deps = [])
    (hfail : (tracker.alloc (m.store n).resources).1 = 0) :
    (Manager.default_create_subset walk_fuel m tracker).1 = none
    ∧ (Manager.default_create_subset walk_fuel m tracker).2.1.published
        = m.published
    ∧ (Manager.default_create_subset walk_fuel m tracker).2.1.store = m.store
    ∧ (Manager.default_create_subset walk_fuel m tracker).2.1.jobs
        = (if n ∈ rest then rest else rest ++ [n]) := by
  have hlen := Manager.extract_max_length m.store m.jobs n rest hext
  have hg : m.jobs.length = rest.length + 1 := hlen.symm
  simp only [Manager.default_create_subset, hg, Manager.default_subset_go,
    Manager.default_subset_try, hext]
  simp only [hw, ne_eq, not_true_eq_false, if_false, ite_false,
    Job.has_completed_deps, hdeps, List.filter_nil, List.length_nil,
    Job.has_failed_dep, List.any_nil, Bool.false_eq_true, hfail]
  simp [Manager.add_job_entry, hw, hdeps, hfail, Manager.default_subset_go,
    Manager.default_subset_try]
  by_cases hmem : n ∈ rest <;> simp [hmem]

/-- C2 witness: `claim2_amended` applied to the two-job scenario of
`claim2_counterexample`. -/
theorem claim2_amended_witness :
    (Manager.default_create_subset 5
      ⟨mkStore [{ job_template with name := "a", resources := [3] },
                { job_template with name := "b", resources := [1] }],
        ["a", "b"], [], 2, 0⟩
      (TrackerState.init [2, 2])).1 = none
    ∧ (Manager.default_create_subset 5
      ⟨mkStore [{ job_template with name := "a", resources := [3] },
                { job_template with name := "b", resources := [1] }],
        ["a", "b"], [], 2, 0⟩
      (TrackerState.init [2, 2])).2.1.published = []
    ∧ (Manager.default_create_subset 5
      ⟨mkStore [{ job_template with name := "a", resources := [3] },
                { job_template with name := "b", resources := [1] }],
        ["a", "b"], [], 2, 0⟩
      (TrackerState.init [2, 2])).2.1.store
        = mkStore [{ job_template with name := "a", resources := [3] },
                   { job_template with name := "b", resources := [1] }]
    ∧ (Manager.default_create_subset 5
      ⟨mkStore [{ job_template with name := "a", resources := [3] },
                { job_template with name := "b", resources := [1] }],
        ["a", "b"], [], 2, 0⟩
      (TrackerState.init [2, 2])).2.1.jobs
        = (if "a" ∈ ["b"] then ["b"] else ["b"] ++ ["a"]) :=
  claim2_amended 5
    ⟨mkStore [{ job_template with name := "a", resources := [3] },
              { job_template with name := "b", resources := [1] }],
      ["a", "b"], [], 2, 0⟩
    (TrackerState.init [2, 2]) "a" ["b"] (by decide) (by decide) (by decide)
    (by decide)

/-- C10: a dependency that ended in `SOFT_TIMEOUT` counts as completed
but not as failed.  For any job all of whose resolved deps are
`SOFT_TIMEOUT`, `has_completed_deps()` is true and `has_failed_dep()` is
false (only `ERR_DEP`, `ERR_OTHER`, `FAILURE` and `HARD_TIMEOUT` are bad
states); consequently, when such a job is the scan's selected candidate
and its resource allocation succeeds, the default scheduler puts it alone
into a LOCAL Set, marks it `IN_PROGRESS`, and publishes nothing (no
`ERR_DEP`). -/
theorem claim10_soft_timeout_deps :
    TestState.bad_states = [TestState.ERR_DEP, TestState.ERR_OTHER,
      TestState.FAILURE, TestState.HARD_TIMEOUT]
    ∧ (∀ (store : String → Job) (j : Job),
        (∀ d ∈ j.job_deps, (store d).state = TestState.SOFT_TIMEOUT) →
        j.has_completed_deps store = true ∧ j.has_failed_dep store = false)
    ∧ (∀ (walk_fuel : Nat) (m : Manager) (tracker : TrackerState)
        (n : String) (rest : List String),
        Manager.extract_max m.store m.jobs = some (n, rest) →
        (m.store n).state = TestState.WAITING →
        (∀ d ∈ (m.store n).job_deps,
          (m.store d).state = TestState.SOFT_TIMEOUT) →
        0 < (tracker.alloc (m.store n).resources).1 →
        (Manager.default_create_subset walk_fuel m tracker).1
            = some ⟨.LOCAL, [n]⟩
        ∧ (Manager.default_create_subset walk_fuel m tracker).2.1.published
            = m.published
        ∧ ((Manager.default_create_subset walk_fuel m tracker).2.1.store
            n).state = TestState.IN_PROGRESS) := by
  refine ⟨rfl, ?_, ?_⟩
  · intro store j hst
    constructor
    · simp only [Job.has_completed_deps, List.length_eq_zero,
        List.filter_eq_nil_iff, decide_eq_true_eq]
      intro d hd
      simp [Job.been_executed, hst d hd]
    · simp only [Job.has_failed_dep, List.any_eq_false]
      intro d hd
      simp [hst d hd, TestState.bad_states]
  · intro walk_fuel m tracker n rest hext hw hst hok
    have hlen := Manager.extract_max_length m.store m.jobs n rest hext
    have hg : m.jobs.length = rest.length + 1 := hlen.symm
    have hcd : (m.store n).has_completed_deps m.store = true := by
      simp only [Job.has_completed_deps, List.length_eq_zero,
        List.filter_eq_nil_iff, decide_eq_true_eq]
      intro d hd
      simp [Job.been_executed, hst d hd]
    have hfd : (m.store n).has_failed_dep m.store = false := by
      simp only [Job.has_failed_dep, List.any_eq_false]
      intro d hd
      simp [hst d hd, TestState.bad_states]
    simp only [Manager.default_create_subset, hg, Manager.default_subset_go,
      Manager.default_subset_try, hext]
    simp only [hw, ne_eq, not_true_eq_false, if_false, ite_false, hcd,
      if_true, hfd, Bool.false_eq_true]
    have hpick : decide (0 < (tracker.alloc (m.store n).resources).1)
        = true := decide_eq_true hok
    simp only [hpick, hw, if_true, and_true, JobSet.add, upd, Job.pick]
    simp [hw, upd, Job.pick]

/-- C10 witness: a WAITING job `j` whose two deps `d1`, `d2` are both
`SOFT_TIMEOUT` is scheduled into a LOCAL Set on a fresh `[2,2]` tracker,
with nothing published. -/
theorem claim10_witness :
    (Manager.default_create_subset 5
      ⟨mkStore [{ job_template with name := "d1", state := .SOFT_TIMEOUT },
                { job_template with name := "d2", state := .SOFT_TIMEOUT },
                { job_template with name := "j", job_deps := ["d1", "d2"] }],
        ["j"], [], 1, 0⟩
      (TrackerState.init [2, 2])).1 = some ⟨.LOCAL, ["j"]⟩
    ∧ (Manager.default_create_subset 5
      ⟨mkStore [{ job_template with name := "d1", state := .SOFT_TIMEOUT },
                { job_template with name := "d2", state := .SOFT_TIMEOUT },
                { job_template with name := "j", job_deps := ["d1", "d2"] }],
        ["j"], [], 1, 0⟩
      (TrackerState.init [2, 2])).2.1.published = []
    ∧ ((Manager.default_create_subset 5
      ⟨mkStore [{ job_template with name := "d1", state := .SOFT_TIMEOUT },
                { job_template with name := "d2", state := .SOFT_TIMEOUT },
                { job_template with name := "j", job_deps := ["d1", "d2"] }],
        ["j"], [], 1, 0⟩
      (TrackerState.init [2, 2])).2.1.store "j").state
        = TestState.IN_PROGRESS :=
  claim10_soft_timeout_deps.2.2 5
    ⟨mkStore [{ job_template with name := "d1", state := .SOFT_TIMEOUT },
              { job_template with name := "d2", state := .SOFT_TIMEOUT },
              { job_template with name := "j", job_deps := ["d1", "d2"] }],
      ["j"], [], 1, 0⟩
    (TrackerState.init [2, 2]) "j" [] (by decide) (by decide) (by decide)
    (by decide)

theorem Manager.extract_max_mem_or (store : String → Job) :
    ∀ (l : List String) (x : String) (rest : List String),
      Manager.extract_max store l = some (x, rest) →
      ∀ n ∈ l, n = x ∨ n ∈ rest
  | [], x, rest, h => by simp [Manager.extract_max] at h
  | a :: as, x, rest, h => by
    intro n hn
    simp only [Manager.extract_max] at h
    cases hx : Manager.extract_max store as with
    | none =>
      rw [hx] at h
      cases h
      rcases List.mem_cons.mp hn with h1 | h1
      · exact Or.inl h1
      · exact Or.inr h1
    | some p =>
      obtain ⟨y, ms⟩ := p
      rw [hx] at h
      by_cases hlt : (store a).get_nb_nodes < (store y).get_nb_nodes
      · simp only [hlt, if_true] at h
        cases h
        rcases List.mem_cons.mp hn with h1 | h1
        · exact Or.inr (h1 ▸ List.mem_cons_self a ms)
        · rcases Manager.extract_max_mem_or store as x ms hx n h1 with h2 | h2
          · exact Or.inl h2
          · exact Or.inr (List.mem_cons_of_mem a h2)
      · simp only [hlt, if_false] at h
        cases h
        rcases List.mem_cons.mp hn with h1 | h1
        · exact Or.inl h1
        · exact Or.inr h1


/-- Case shape of `default_subset_try`: either the candidate is published
as `ERR_DEP` and the scan continues, or the loop breaks — scheduling the
candidate alone in a LOCAL Set, or buffering it for reschedule.  In the
break cases the pool, the published list, and every job object other
than the candidate are untouched. -/
theorem Manager.try_shape (m1 : Manager) (tracker : TrackerState)
    (resched1 : List String) (cand : String) :
    (Manager.default_subset_try m1 tracker resched1 cand
      = .inl (m1.publish_failed_to_run_job cand NOSTART_STR .ERR_DEP))
    ∨ (∃ m2 tr, Manager.default_subset_try m1 tracker resched1 cand
        = .inr (some ⟨.LOCAL, [cand]⟩, m2, tr, resched1)
        ∧ m2.published = m1.published ∧ m2.jobs = m1.jobs
        ∧ (∀ x, x ≠ cand → m2.store x = m1.store x))
    ∨ (∃ m2 tr, Manager.default_subset_try m1 tracker resched1 cand
        = .inr (none, m2, tr, resched1 ++ [cand])
        ∧ m2.published = m1.published ∧ m2.jobs = m1.jobs
        ∧ (∀ x, x ≠ cand → m2.store x = m1.store x)) := by
  unfold Manager.default_subset_try
  split
  · exact Or.inl rfl
  · dsimp only
    split
    · split
      · refine Or.inr (Or.inl ⟨_, _, rfl, rfl, rfl, ?_⟩)
        intro x hx
        simp [upd, hx]
      · refine Or.inr (Or.inr ⟨_, _, rfl, rfl, rfl, ?_⟩)
        intro x hx
        simp [upd, hx]
    · split
      · rename_i hp hc
        exact absurd hc.2 hp
      · refine Or.inr (Or.inr ⟨_, _, rfl, rfl, rfl, ?_⟩)
        intro x hx
        rfl

theorem Manager.publish_failed_published (m : Manager) (n : String)
    (out : String) (st : TestState) :
    (m.publish_failed_to_run_job n out st).published
      = m.published ++ [(n, st)] := rfl

theorem Manager.publish_failed_jobs (m : Manager) (n : String)
    (out : String) (st : TestState) :
    (m.publish_failed_to_run_job n out st).jobs = m.jobs := rfl

theorem Manager.publish_failed_store_ne (m : Manager) (n : String)
    (out : String) (st : TestState) (x : String) (hx : x ≠ n) :
    (m.publish_failed_to_run_job n out st).store x = m.store x := by
  simp [Manager.publish_failed_to_run_job, upd, hx]

/-- Along the scan, the published list only grows. -/
theorem Manager.go_published_mono (walk_fuel : Nat) :
    ∀ (gas : Nat) (m : Manager) (tracker : TrackerState)
      (resched : List String) (e : String × TestState), e ∈ m.published →
      e ∈ (Manager.default_subset_go walk_fuel gas m tracker
        resched).2.1.published
  | 0, m, tracker, resched, e, he => by
      simpa [Manager.default_subset_go] using he
  | gas + 1, m, tracker, resched, e, he => by
      rw [Manager.default_subset_go]
      cases hext : Manager.extract_max m.store m.jobs with
      | none => simpa using he
      | some p =>
        obtain ⟨x, rest⟩ := p
        dsimp only
        split
        · exact Manager.go_published_mono walk_fuel gas _ _ _ e he
        · split
          · rcases Manager.try_shape { m with jobs := rest } tracker
                resched x with h | ⟨m2, tr, h, hpub, _, _⟩
                | ⟨m2, tr, h, hpub, _, _⟩ <;> rw [h]
            · refine Manager.go_published_mono walk_fuel gas _ _ _ e ?_
              rw [Manager.publish_failed_published]
              exact List.mem_append_left _ he
            · simpa [hpub] using he
            · simpa [hpub] using he
          · split
            · exact Manager.go_published_mono walk_fuel gas _ _ _ e he
            · rcases Manager.try_shape { m with jobs := rest } tracker
                  (resched ++ [x]) _ with h | ⟨m2, tr, h, hpub, _, _⟩
                  | ⟨m2, tr, h, hpub, _, _⟩ <;> rw [h]
              · refine Manager.go_published_mono walk_fuel gas _ _ _ e ?_
                rw [Manager.publish_failed_published]
                exact List.mem_append_left _ he
              · simpa [hpub] using he
              · simpa [hpub] using he

/-- Along the scan, the reschedule buffer only grows. -/
theorem Manager.go_resched_mono (walk_fuel : Nat) :
    ∀ (gas : Nat) (m : Manager) (tracker : TrackerState)
      (resched : List String) (n : String), n ∈ resched →
      n ∈ (Manager.default_subset_go walk_fuel gas m tracker resched).2.2.2
  | 0, m, tracker, resched, n, hn => by
      simpa [Manager.default_subset_go] using hn
  | gas + 1, m, tracker, resched, n, hn => by
      rw [Manager.default_subset_go]
      cases hext : Manager.extract_max m.store m.jobs with
      | none => simpa using hn
      | some p =>
        obtain ⟨x, rest⟩ := p
        dsimp only
        split
        · exact Manager.go_resched_mono walk_fuel gas _ _ _ n hn
        · split
          · rcases Manager.try_shape { m with jobs := rest } tracker
                resched x with h | ⟨m2, tr, h, _, _, _⟩
                | ⟨m2, tr, h, _, _, _⟩ <;> rw [h]
            · exact Manager.go_resched_mono walk_fuel gas _ _ _ n hn
            · exact hn
            · exact List.mem_append_left _ hn
          · split
            · exact Manager.go_resched_mono walk_fuel gas _ _ _ n
                (List.mem_append_left _ hn)
            · rcases Manager.try_shape { m with jobs := rest } tracker
                  (resched ++ [x]) _ with h | ⟨m2, tr, h, _, _, _⟩
                  | ⟨m2, tr, h, _, _, _⟩ <;> rw [h]
              · exact Manager.go_resched_mono walk_fuel gas _ _ _ n
                  (List.mem_append_left _ hn)
              · exact List.mem_append_left _ hn
              · exact List.mem_append_left _ (List.mem_append_left _ hn)

/-- Where a pool job can end up after one scan: still in the remaining
pool, in the reschedule buffer, inside the scheduled Set, or published
(used by the C5 invariant proof). -/
def Manager.keeps_in
    (r : Option JobSet × Manager × TrackerState × List String)
    (n : String) : Prop :=
  n ∈ r.2.1.jobs ∨ n ∈ r.2.2.2
  ∨ (∃ st, r.1 = some st ∧ n ∈ st.content)
  ∨ (∃ e ∈ r.2.1.published, e.1 = n)

theorem Manager.go_keeps (walk_fuel : Nat) :
    ∀ (gas : Nat) (m : Manager) (tracker : TrackerState)
      (resched : List String) (n : String),
      n ∈ m.jobs → (m.store n).state = TestState.WAITING →
      Manager.keeps_in
        (Manager.default_subset_go walk_fuel gas m tracker resched) n
  | 0, m, tracker, resched, n, hn, hst => by
      rw [Manager.default_subset_go]
      exact Or.inl hn
  | gas + 1, m, tracker, resched, n, hn, hst => by
      rw [Manager.default_subset_go]
      cases hext : Manager.extract_max m.store m.jobs with
      | none => exact Or.inl hn
      | some p =>
        obtain ⟨x, rest⟩ := p
        have hor := Manager.extract_max_mem_or m.store m.jobs x rest hext n hn
        dsimp only
        split
        · -- popped job not WAITING: n cannot be x
          rename_i hxw
          have hne : n ≠ x := by
            intro hnx
            exact hxw (by simpa [hnx] using hst)
          have hnr : n ∈ rest := hor.resolve_left hne
          exact Manager.go_keeps walk_fuel gas _ _ _ n hnr hst
        · split
          · -- completed deps: candidate is x itself
            rcases Manager.try_shape { m with jobs := rest } tracker
                resched x with h | ⟨m2, tr, h, hpub, hjobs, hsto⟩
                | ⟨m2, tr, h, hpub, hjobs, hsto⟩ <;> rw [h]
            · by_cases hne : n = x
              · refine Or.inr (Or.inr (Or.inr ⟨(x, .ERR_DEP), ?_, hne.symm⟩))
                refine Manager.go_published_mono walk_fuel gas _ _ _ _ ?_
                rw [Manager.publish_failed_published]
                exact List.mem_append_right _ (List.mem_singleton_self _)
              · have hnr : n ∈ rest := hor.resolve_left hne
                refine Manager.go_keeps walk_fuel gas _ _ _ n ?_ ?_
                · simpa [Manager.publish_failed_jobs] using hnr
                · rw [Manager.publish_failed_store_ne _ _ _ _ n hne]
                  exact hst
            · by_cases hne : n = x
              · exact Or.inr (Or.inr (Or.inl ⟨⟨.LOCAL, [x]⟩, rfl,
                  by simp [hne]⟩))
              · have hnr : n ∈ rest := hor.resolve_left hne
                exact Or.inl (by simpa [hjobs] using hnr)
            · by_cases hne : n = x
              · exact Or.inr (Or.inl (by simp [hne]))
              · have hnr : n ∈ rest := hor.resolve_left hne
                exact Or.inl (by simpa [hjobs] using hnr)
          · -- incomplete deps: x is buffered, walk to a dep
            split
            · -- walk found nothing: continue
              by_cases hne : n = x
              · exact Or.inr (Or.inl (Manager.go_resched_mono walk_fuel gas
                  _ _ _ n (by simp [hne])))
              · have hnr : n ∈ rest := hor.resolve_left hne
                exact Manager.go_keeps walk_fuel gas _ _ _ n hnr hst
            · rename_i d hwalk
              rcases Manager.try_shape { m with jobs := rest } tracker
                  (resched ++ [x]) d with h | ⟨m2, tr, h, hpub, hjobs, hsto⟩
                  | ⟨m2, tr, h, hpub, hjobs, hsto⟩ <;> rw [h]
              · by_cases hnd : n = d
                · refine Or.inr (Or.inr (Or.inr ⟨(d, .ERR_DEP), ?_, hnd.symm⟩))
                  refine Manager.go_published_mono walk_fuel gas _ _ _ _ ?_
                  rw [Manager.publish_failed_published]
                  exact List.mem_append_right _ (List.mem_singleton_self _)
                · by_cases hne : n = x
                  · exact Or.inr (Or.inl (Manager.go_resched_mono walk_fuel
                      gas _ _ _ n (by simp [hne])))
                  · have hnr : n ∈ rest := hor.resolve_left hne
                    refine Manager.go_keeps walk_fuel gas _ _ _ n ?_ ?_
                    · simpa [Manager.publish_failed_jobs] using hnr
                    · rw [Manager.publish_failed_store_ne _ _ _ _ n hnd]
                      exact hst
              · by_cases hnd : n = d
                · exact Or.inr (Or.inr (Or.inl ⟨⟨.LOCAL, [d]⟩, rfl,
                    by simp [hnd]⟩))
                · by_cases hne : n = x
                  · exact Or.inr (Or.inl (by simp [hne]))
                  · have hnr : n ∈ rest := hor.resolve_left hne
                    exact Or.inl (by simpa [hjobs] using hnr)
              · by_cases hnd : n = d
                · exact Or.inr (Or.inl (by simp [hnd]))
                · by_cases hne : n = x
                  · exact Or.inr (Or.inl (by simp [hne]))
                  · have hnr : n ∈ rest := hor.resolve_left hne
                    exact Or.inl (by simpa [hjobs] using hnr)

theorem Manager.add_fold_published (l : List String) (m : Manager) :
    (l.foldl Manager.add_job_entry m).published = m.published := by
  induction l generalizing m with
  | nil => rfl
  | cons x xs ih =>
      rw [List.foldl_cons, ih]
      simp only [Manager.add_job_entry]
      split <;> rfl

theorem Manager.add_job_entry_mem (m : Manager) (x n : String)
    (hn : n ∈ m.jobs) : n ∈ (m.add_job_entry x).jobs := by
  simp only [Manager.add_job_entry]
  split
  · exact hn
  · exact List.mem_append_left _ hn

theorem Manager.add_job_entry_self (m : Manager) (x : String) :
    x ∈ (m.add_job_entry x).jobs := by
  simp only [Manager.add_job_entry]
  split
  · assumption
  · exact List.mem_append_right _ (List.mem_singleton_self _)

theorem Manager.add_fold_mem_pool (l : List String) (m : Manager)
    (n : String) (hn : n ∈ m.jobs) :
    n ∈ (l.foldl Manager.add_job_entry m).jobs := by
  induction l generalizing m with
  | nil => exact hn
  | cons x xs ih =>
      rw [List.foldl_cons]
      exact ih _ (Manager.add_job_entry_mem m x n hn)

theorem Manager.add_fold_mem_list (l : List String) (m : Manager)
    (n : String) (hn : n ∈ l) :
    n ∈ (l.foldl Manager.add_job_entry m).jobs := by
  induction l generalizing m with
  | nil => cases hn
  | cons x xs ih =>
      rw [List.foldl_cons]
      rcases List.mem_cons.mp hn with h | h
      · exact Manager.add_fold_mem_pool xs _ n
          (h ▸ Manager.add_job_entry_self m x)
      · exact ih _ h

/-- C5 (amended): after one call to `Manager.__default_create_subset`,
every job that was in the pool beforehand in state `WAITING` and was
neither placed into the returned Set nor published is present in the pool
again; but a visited job whose state is not `WAITING` is dropped by the
`continue` at the top of the loop and is not re-added (see
`claim5_counterexample`), so such jobs are lost. -/
theorem claim5_amended (walk_fuel : Nat) (m : Manager)
    (tracker : TrackerState) (n : String)
    (hn : n ∈ m.jobs) (hst : (m.store n).state = TestState.WAITING)
    (hset : ∀ st, (Manager.default_create_subset walk_fuel m tracker).1
        = some st → n ∉ st.content)
    (hpub : ∀ e ∈ (Manager.default_create_subset walk_fuel m
        tracker).2.1.published, e.1 ≠ n) :
    n ∈ (Manager.default_create_subset walk_fuel m tracker).2.1.jobs := by
  have hk := Manager.go_keeps walk_fuel m.jobs.length m tracker [] n hn hst
  simp only [Manager.default_create_subset] at hset hpub ⊢
  rcases hk with h | h | ⟨st, h1, h2⟩ | ⟨e, h1, h2⟩
  · exact Manager.add_fold_mem_pool _ _ n h
  · exact Manager.add_fold_mem_list _ _ n h
  · exact absurd h2 (hset st h1)
  · refine absurd h2 (hpub e ?_)
    rw [Manager.add_fold_published]
    exact h1

/-- C5 (counterexample): a pool holding a single job `c` in state
`SUCCESS`.  The scan pops it, sees a non-`WAITING` state, and `continue`s
without buffering it: the call returns no Set and publishes nothing, yet
the pool is empty afterwards — `c` was neither scheduled nor published
and is still gone, so "no job is lost" is false for non-WAITING
jobs. -/
theorem claim5_counterexample :
    (Manager.default_create_subset 5
      ⟨mkStore [{ job_template with name := "c", state := .SUCCESS }],
        ["c"], [], 1, 0⟩
      (TrackerState.init [2, 2])).1 = none
    ∧ (Manager.default_create_subset 5
      ⟨mkStore [{ job_template with name := "c", state := .SUCCESS }],
        ["c"], [], 1, 0⟩
      (TrackerState.init [2, 2])).2.1.published = []
    ∧ (Manager.default_create_subset 5
      ⟨mkStore [{ job_template with name := "c", state := .SUCCESS }],
        ["c"], [], 1, 0⟩
      (TrackerState.init [2, 2])).2.1.jobs = [] :=
  ⟨rfl, rfl, rfl⟩

/-- C5 witness: `claim5_amended` applied to a single WAITING job `w`
whose `[3]` allocation fails on a `[2,2]` tracker — it is back in the
pool after the call. -/
theorem claim5_witness :
    "w" ∈ (Manager.default_create_subset 5
      ⟨mkStore [{ job_template with name := "w", resources := [3] }],
        ["w"], [], 1, 0⟩
      (TrackerState.init [2, 2])).2.1.jobs :=
  claim5_amended 5
    ⟨mkStore [{ job_template with name := "w", resources := [3] }],
      ["w"], [], 1, 0⟩
    (TrackerState.init [2, 2]) "w" (by decide) (by decide)
    (fun st h => Option.noConfusion h)
    (fun e he => absurd he (List.not_mem_nil e))

/-! ### Transpose/filter lemmas for C8 -/

theorem Manager.transpose_inner_depnames (h : String) :
    ∀ (ds : List String) (st : String → Job) (x : String),
      ((ds.foldl (fun st d => upd st d
          { st d with dependee := (st d).dependee ++ [h] }) st) x).job_deps
        = (st x).job_deps := by
  intro ds
  induction ds with
  | nil => intro st x; rfl
  | cons d rest ih =>
      intro st x
      rw [List.foldl_cons, ih]
      by_cases hx : x = d <;> simp [upd, hx]

theorem Manager.transpose_inner_mono (h : String) :
    ∀ (ds : List String) (st : String → Job) (x : String),
      ((st x).dependee).length ≤
        ((ds.foldl (fun st d => upd st d
          { st d with dependee := (st d).dependee ++ [h] }) st) x).dependee.length := by
  intro ds
  induction ds with
  | nil => intro st x; exact le_refl _
  | cons d rest ih =>
      intro st x
      rw [List.foldl_cons]
      refine le_trans ?_ (ih _ x)
      by_cases hx : x = d <;> simp [upd, hx]

theorem Manager.transpose_inner_nonempty (h : String) :
    ∀ (ds : List String) (st : String → Job) (x : String), x ∈ ds →
      0 < ((ds.foldl (fun st d => upd st d
          { st d with dependee := (st d).dependee ++ [h] }) st) x).dependee.length := by
  intro ds
  induction ds with
  | nil => intro st x hx; cases hx
  | cons d rest ih =>
      intro st x hx
      rw [List.foldl_cons]
      rcases List.mem_cons.mp hx with h1 | h1
      · refine lt_of_lt_of_le ?_ (Manager.transpose_inner_mono h rest _ x)
        simp [upd, h1]
      · exact ih _ x h1

theorem Manager.transpose_of_depnames (st : String → Job) (h x : String) :
    ((Manager.transpose_deps_of st h) x).job_deps = (st x).job_deps :=
  Manager.transpose_inner_depnames h _ st x

theorem Manager.transpose_of_mono (st : String → Job) (h x : String) :
    ((st x).dependee).length
      ≤ ((Manager.transpose_deps_of st h) x).dependee.length :=
  Manager.transpose_inner_mono h _ st x

theorem Manager.transpose_of_nonempty (st : String → Job) (h x : String)
    (hx : x ∈ (st h).job_deps) :
    0 < ((Manager.transpose_deps_of st h) x).dependee.length :=
  Manager.transpose_inner_nonempty h _ st x hx

theorem Manager.transpose_fold_mono (x : String) :
    ∀ (pool : List String) (st : String → Job),
      ((st x).dependee).length
        ≤ ((pool.foldl Manager.transpose_deps_of st) x).dependee.length := by
  intro pool
  induction pool with
  | nil => intro st; exact le_refl _
  | cons p rest ih =>
      intro st
      rw [List.foldl_cons]
      exact le_trans (Manager.transpose_of_mono st p x) (ih _)

theorem Manager.transpose_fold_dependee (x : String) :
    ∀ (pool : List String) (st : String → Job) (holder : String),
      holder ∈ pool → x ∈ (st holder).job_deps →
      0 < ((pool.foldl Manager.transpose_deps_of st) x).dependee.length := by
  intro pool
  induction pool with
  | nil => intro st holder hh; cases hh
  | cons p rest ih =>
      intro st holder hh hx
      rw [List.foldl_cons]
      rcases List.mem_cons.mp hh with h1 | h1
      · -- holder processed first: dependee becomes nonempty, rest is monotone
        exact lt_of_lt_of_le
          (Manager.transpose_of_nonempty st p x (h1 ▸ hx))
          (Manager.transpose_fold_mono x rest _)
      · exact ih _ holder h1 (by rwa [Manager.transpose_of_depnames])

theorem Manager.filter_scan_spec (run_filter : List (String × Bool))
    (store : String → Job) :
    ∀ (l : List String) (x : String),
      Manager.filter_scan run_filter store l = some x →
      (store x).should_run run_filter = false := by
  intro l
  induction l with
  | nil => intro x hx; cases hx
  | cons a as ih =>
      intro x hx
      simp only [Manager.filter_scan] at hx
      by_cases hsr : (store a).should_run run_filter
      · rw [if_pos hsr] at hx
        exact ih x hx
      · rw [if_neg hsr] at hx
        cases hx
        exact Bool.not_eq_true _ ▸ (by simpa using hsr)

theorem Job.should_run_of_dependee (run_filter : List (String × Bool))
    (j : Job) (h : 0 < j.dependee.length) :
    j.should_run run_filter = true := by
  simp [Job.should_run, h]

/-- C8: a job that has at least one dependee — some other pool job lists
it among its resolved dependencies — is never removed from the pool by
`filter_tags()`, whatever its own tags are: after the transpose its
dependee list is non-empty, so `should_run()` returns true before any
tag filtering, and the scan can only remove a job whose `should_run()`
is false. -/
theorem claim8_dependee_never_removed (run_filter : List (String × Bool))
    (m : Manager) (n holder : String)
    (hn : n ∈ m.jobs) (hh : holder ∈ m.jobs) (hne : holder ≠ n)
    (hdep : n ∈ (m.store holder).job_deps) :
    n ∈ (Manager.filter_tags run_filter m).1.jobs := by
  have hdependee :
      0 < ((m.transpose_dep_graph).store n).dependee.length :=
    Manager.transpose_fold_dependee n m.jobs m.store holder hh hdep
  simp only [Manager.filter_tags]
  cases hscan : Manager.filter_scan run_filter
      (m.transpose_dep_graph).store (m.transpose_dep_graph).jobs with
  | none => exact hn
  | some x =>
      have hx := Manager.filter_scan_spec run_filter
        (m.transpose_dep_graph).store _ x hscan
      have hnx : n ≠ x := by
        intro h
        rw [← h] at hx
        rw [Job.should_run_of_dependee run_filter _ hdependee] at hx
        cases hx
      simp only
      exact (List.mem_erase_of_ne hnx).mpr hn

/-- C8 witness: the spec §8 scenario — `a` (tags `["x"]`) and `b` (tags
`["y"]`, depending on `a`) under run-filter `{"y": True}`: `a` stays in
the pool because `b` depends on it. -/
theorem claim8_witness :
    "a" ∈ (Manager.filter_tags [("y", true)]
      ⟨mkStore [{ job_template with name := "a", tags := ["x"] },
                { job_template with name := "b", tags := ["y"], job_deps := ["a"] }],
        ["a", "b"], [], 2, 0⟩).1.jobs :=
  claim8_dependee_never_removed [("y", true)]
    ⟨mkStore [{ job_template with name := "a", tags := ["x"] },
              { job_template with name := "b", tags := ["y"], job_deps := ["a"] }],
      ["a", "b"], [], 2, 0⟩
    "a" "b" (by decide) (by decide) (by decide) (by decide)

/-- C3 (code evaluation at the failing input): a pool holding one job
`a` with no tags, no deps and no dependees, under run-filter
`{"x": True}`.  `should_run()` is false for `a` (an allow filter exists
and nothing matches), so the `filter_tags` loop pops `a` from
`self.jobs` while iterating `self.jobs.items()` — in CPython the next
iterator step then raises `RuntimeError: dictionary changed size during
iteration` (modelled by the `true` flag): the call removes the first
filtered job, decrements the total, and terminates abnormally instead of
iterating to a fixed point. -/
theorem claim3_filter_raises :
    (({ job_template with name := "a" }).should_run [("x", true)] = false)
    ∧ (Manager.filter_tags [("x", true)]
        ⟨mkStore [{ job_template with name := "a" }], ["a"], [], 1, 0⟩).2
        = true
    ∧ (Manager.filter_tags [("x", true)]
        ⟨mkStore [{ job_template with name := "a" }], ["a"], [], 1, 0⟩).1.jobs
        = []
    ∧ (Manager.filter_tags [("x", true)]
        ⟨mkStore [{ job_template with name := "a" }],
          ["a"], [], 1, 0⟩).1.count_total = 0 := by
  refine ⟨by decide, by decide, by decide, by decide⟩

/-! ## Dependency resolution (`Manager.resolve_deps` /
`Manager.resolve_single_job_deps`)

The slice of Manager state the resolver reads: the `jobs` dict (keys in
insertion order, objects in `store`) and the `dep_rules` base-name
buckets filled by `save_dependency_rule`.  As everywhere in this file a
job object is denoted by its unique fully-qualified name (`jid =
md5(name)` keying identified with name keying, collision-free).

`resolve_single_job_deps` appends `job.name` to the seen chain, then for
each unresolved dependency name resolves it to job objects — an exact
match in the pool, else the `dep_rules` bucket, else
`UndefDependencyError` — raises `CircularDependencyError` when a
resolved dep's name is already in the chain, and recurses into each dep
with a copy (`list(seen_deps)`) of the chain.  The recursion carries
explicit fuel; `resolve_deps` passes `jobs.length + 1`, which is enough
because every recursion level appends one pool name not yet in the
chain (`fuel_exhausted` is proved unreachable under the pool-closure
hypotheses of the C7 theorem).  `job.resolve_a_dep(depname, job_dep)`
only appends to `job._deps`, which no branch of the resolver reads
(resolution reads `_depnames`), so the `_deps` population is not
modelled here; the error and termination behaviour is unaffected. -/
structure DepResolver where
  store : String → Job
  jobs : List String
  dep_rules : List (String × List String)

/-- Dependency-name lookup, in resolution order: exact id match in the
pool, then the base-name bucket, else failure. -/
def DepResolver.lookup_dep (R : DepResolver) (depname : String) :
    Option (List String) :=
  if depname ∈ R.jobs then some [depname]
  else match R.dep_rules.find? (fun p => p.1 == depname) with
    | some p => some p.2
    | none => none

inductive ResolveErr where
  | UndefDependencyError
  | CircularDependencyError
  | fuel_exhausted
deriving DecidableEq, Repr

mutual
/-- `Manager.resolve_single_job_deps(job, seen_deps)`. -/
def DepResolver.resolve_single (R : DepResolver) (fuel : Nat)
    (jobName : String) (seen_deps : List String) :
    Except ResolveErr Unit :=
  match fuel with
  | 0 => .error .fuel_exhausted
  | fuel + 1 =>
    DepResolver.resolve_depnames R fuel
      ((R.store jobName).job_depnames) (seen_deps ++ [jobName])
termination_by (fuel, 0, 0)
/-- The `for depname in job.job_depnames` loop. -/
def DepResolver.resolve_depnames (R : DepResolver) (fuel : Nat)
    (dns : List String) (seen1 : List String) :
    Except ResolveErr Unit :=
  match dns with
  | [] => .ok ()
  | dn :: rest =>
    match R.lookup_dep dn with
    | none => .error .UndefDependencyError
    | some lst =>
      match DepResolver.resolve_dep_list R fuel lst seen1 with
      | .error e => .error e
      | .ok () => DepResolver.resolve_depnames R fuel rest seen1
termination_by (fuel, 2, dns.length)
/-- The `for job_dep in job_dep_list` loop: chain check, then recursion
with a copied chain. -/
def DepResolver.resolve_dep_list (R : DepResolver) (fuel : Nat)
    (lst : List String) (seen1 : List String) :
    Except ResolveErr Unit :=
  match lst with
  | [] => .ok ()
  | d :: ds =>
    if d ∈ seen1 then .error .CircularDependencyError
    else
      match DepResolver.resolve_single R fuel d seen1 with
      | .error e => .error e
      | .ok () => DepResolver.resolve_dep_list R fuel ds seen1
termination_by (fuel, 1, lst.length)
end

/-- The `for _, job in self.jobs.items()` loop of `resolve_deps`,
propagating the first raised error. -/
def DepResolver.resolve_deps_go (R : DepResolver) :
    List String → Except ResolveErr Unit
  | [] => .ok ()
  | k :: ks =>
    match R.resolve_single (R.jobs.length + 1) k [] with
    | .error e => .error e
    | .ok () => DepResolver.resolve_deps_go R ks

/-- `Manager.resolve_deps`. -/
def DepResolver.resolve_deps (R : DepResolver) : Except ResolveErr Unit :=
  R.resolve_deps_go R.jobs

/-- The dependency edge relation read by the resolver: job `a` reaches
job `b` when one of `a`'s unresolved dep names looks up to a list
containing `b`. -/
def DepResolver.edge (R : DepResolver) (a b : String) : Prop :=
  ∃ dn ∈ (R.store a).job_depnames, ∃ l, R.lookup_dep dn = some l ∧ b ∈ l

/-- Dependency paths of length ≥ 1. -/
inductive DepResolver.path (R : DepResolver) : String → String → Prop where
  | single {a b : String} : R.edge a b → DepResolver.path R a b
  | cons {a b c : String} : R.edge a b → DepResolver.path R b c →
      DepResolver.path R a c

theorem nodup_subset_length {l₁ l₂ : List String} (h : l₁.Nodup)
    (s : l₁ ⊆ l₂) : l₁.length ≤ l₂.length := by
  calc l₁.length = l₁.toFinset.card := (List.toFinset_card_of_nodup h).symm
    _ ≤ l₂.toFinset.card := Finset.card_le_card (fun x hx => by
        simp only [List.mem_toFinset] at hx ⊢; exact s hx)
    _ ≤ l₂.length := l₂.toFinset_card_le

theorem DepResolver.resolve_depnames_ok (R : DepResolver) (fuel : Nat)
    (seen1 : List String) :
    ∀ (dns : List String),
      R.resolve_depnames fuel dns seen1 = .ok () →
      ∀ dn ∈ dns, ∃ l, R.lookup_dep dn = some l
        ∧ R.resolve_dep_list fuel l seen1 = .ok () := by
  intro dns
  induction dns with
  | nil => intro _ dn hdn; cases hdn
  | cons a rest ih =>
      intro hok dn hdn
      rw [DepResolver.resolve_depnames] at hok
      cases hl : R.lookup_dep a with
      | none => simp only [hl] at hok; cases hok
      | some l =>
          simp only [hl] at hok
          cases hdl : R.resolve_dep_list fuel l seen1 with
          | error e => simp only [hdl] at hok; cases hok
          | ok u =>
              cases u
              simp only [hdl] at hok
              rcases List.mem_cons.mp hdn with h1 | h1
              · exact ⟨l, by rw [h1]; exact hl, hdl⟩
              · exact ih hok dn h1

theorem DepResolver.resolve_dep_list_ok (R : DepResolver) (fuel : Nat)
    (seen1 : List String) :
    ∀ (lst : List String),
      R.resolve_dep_list fuel lst seen1 = .ok () →
      ∀ d ∈ lst, d ∉ seen1 ∧ R.resolve_single fuel d seen1 = .ok () := by
  intro lst
  induction lst with
  | nil => intro _ d hd; cases hd
  | cons a rest ih =>
      intro hok d hd
      rw [DepResolver.resolve_dep_list] at hok
      by_cases hmem : a ∈ seen1
      · rw [if_pos hmem] at hok; cases hok
      · rw [if_neg hmem] at hok
        cases hs : R.resolve_single fuel a seen1 with
        | error e => simp only [hs] at hok; cases hok
        | ok u =>
            cases u
            simp only [hs] at hok
            rcases List.mem_cons.mp hd with h1 | h1
            · exact ⟨by rw [h1]; exact hmem, by rw [h1]; exact hs⟩
            · exact ih hok d h1

/-- A job lying on (or reaching back into) the seen chain makes
`resolve_single_job_deps` fail: following the path, the chain eventually
revisits a seen name. -/
theorem DepResolver.path_not_ok (R : DepResolver) {j z : String}
    (hp : R.path j z) :
    ∀ (fuel : Nat) (seen : List String), z ∈ seen ++ [j] →
      R.resolve_single fuel j seen ≠ .ok () := by
  induction hp with
  | single hedge =>
      rename_i a b
      intro fuel seen hz hok
      match fuel with
      | 0 => rw [DepResolver.resolve_single] at hok; cases hok
      | fuel + 1 =>
        rw [DepResolver.resolve_single] at hok
        obtain ⟨dn, hdn, l, hl, hbl⟩ := hedge
        obtain ⟨l', hl', hdl⟩ :=
          R.resolve_depnames_ok fuel _ _ hok dn hdn
        rw [hl] at hl'
        cases hl'
        obtain ⟨hnotin, _⟩ := R.resolve_dep_list_ok fuel _ _ hdl b hbl
        exact hnotin hz
  | cons hedge hpath ih =>
      rename_i a b c
      intro fuel seen hz hok
      match fuel with
      | 0 => rw [DepResolver.resolve_single] at hok; cases hok
      | fuel + 1 =>
        rw [DepResolver.resolve_single] at hok
        obtain ⟨dn, hdn, l, hl, hbl⟩ := hedge
        obtain ⟨l', hl', hdl⟩ :=
          R.resolve_depnames_ok fuel _ _ hok dn hdn
        rw [hl] at hl'
        cases hl'
        obtain ⟨hnotin, hsingle⟩ := R.resolve_dep_list_ok fuel _ _ hdl b hbl
        exact ih fuel (seen ++ [a]) (List.mem_append_left _ hz) hsingle

mutual
/-- Under a resolvable, pool-closed dependency table, the resolver never
runs out of fuel and never reports an undefined dependency: each call
either succeeds or raises `CircularDependencyError`. -/
theorem DepResolver.resolve_single_dichotomy (R : DepResolver)
    (hres : ∀ k ∈ R.jobs, ∀ dn ∈ (R.store k).job_depnames,
      R.lookup_dep dn ≠ none)
    (hclosed : ∀ dn l, R.lookup_dep dn = some l → ∀ b ∈ l, b ∈ R.jobs)
    (fuel : Nat) (j : String) (seen : List String)
    (hj : j ∈ R.jobs) (hnd : seen.Nodup) (hsub : ∀ s ∈ seen, s ∈ R.jobs)
    (hjn : j ∉ seen) (hfuel : R.jobs.length + 1 ≤ fuel + seen.length) :
    R.resolve_single fuel j seen = .ok ()
    ∨ R.resolve_single fuel j seen = .error .CircularDependencyError :=
  match fuel with
  | 0 => by
      exfalso
    
      have h1 : (seen ++ [j]).Nodup :=
        (List.perm_append_singleton j seen).symm.nodup
          (List.nodup_cons.mpr ⟨hjn, hnd⟩)
      have h2 : (seen ++ [j]) ⊆ R.jobs := by
        intro s hs
        rcases List.mem_append.mp hs with h | h
        · exact hsub s h
        · rw [List.mem_singleton.mp h]; exact hj
      have := nodup_subset_length h1 h2
      simp only [List.length_append, List.length_singleton] at this
      omega
  | fuel + 1 => by
      rw [DepResolver.resolve_single]
      refine DepResolver.resolve_depnames_dichotomy R hres hclosed fuel _ _
        (hres j hj) ?_ ?_ ?_
      · exact (List.perm_append_singleton j seen).symm.nodup
          (List.nodup_cons.mpr ⟨hjn, hnd⟩)
      · intro s hs
        rcases List.mem_append.mp hs with h | h
        · exact hsub s h
        · rw [List.mem_singleton.mp h]; exact hj
      · simp only [List.length_append, List.length_singleton]
        omega
termination_by (fuel, 0, 0)
theorem DepResolver.resolve_depnames_dichotomy (R : DepResolver)
    (hres : ∀ k ∈ R.jobs, ∀ dn ∈ (R.store k).job_depnames,
      R.lookup_dep dn ≠ none)
    (hclosed : ∀ dn l, R.lookup_dep dn = some l → ∀ b ∈ l, b ∈ R.jobs)
    (fuel : Nat) (dns : List String) (seen1 : List String)
    (hdns : ∀ dn ∈ dns, R.lookup_dep dn ≠ none)
    (hnd1 : seen1.Nodup) (hsub1 : ∀ s ∈ seen1, s ∈ R.jobs)
    (hfuel : R.jobs.length + 1 ≤ fuel + seen1.length) :
    R.resolve_depnames fuel dns seen1 = .ok ()
    ∨ R.resolve_depnames fuel dns seen1
        = .error .CircularDependencyError :=
  match dns with
  | [] => by rw [DepResolver.resolve_depnames]; exact Or.inl rfl
  | dn :: rest => by
      rw [DepResolver.resolve_depnames]
      cases hl : R.lookup_dep dn with
      | none => exact absurd hl (hdns dn (List.mem_cons_self dn rest))
      | some l =>
          dsimp only
          rcases DepResolver.resolve_dep_list_dichotomy R hres hclosed fuel
              l seen1 (hclosed dn l hl) hnd1 hsub1 hfuel with h | h
          · rw [h]
            exact DepResolver.resolve_depnames_dichotomy R hres hclosed fuel
              rest seen1 (fun x hx => hdns x (List.mem_cons_of_mem dn hx))
              hnd1 hsub1 hfuel
          · rw [h]
            exact Or.inr rfl
termination_by (fuel, 2, dns.length)
theorem DepResolver.resolve_dep_list_dichotomy (R : DepResolver)
    (hres : ∀ k ∈ R.jobs, ∀ dn ∈ (R.store k).job_depnames,
      R.lookup_dep dn ≠ none)
    (hclosed : ∀ dn l, R.lookup_dep dn = some l → ∀ b ∈ l, b ∈ R.jobs)
    (fuel : Nat) (lst : List String) (seen1 : List String)
    (hlst : ∀ d ∈ lst, d ∈ R.jobs)
    (hnd1 : seen1.Nodup) (hsub1 : ∀ s ∈ seen1, s ∈ R.jobs)
    (hfuel : R.jobs.length + 1 ≤ fuel + seen1.length) :
    R.resolve_dep_list fuel lst seen1 = .ok ()
    ∨ R.resolve_dep_list fuel lst seen1
        = .error .CircularDependencyError :=
  match lst with
  | [] => by rw [DepResolver.resolve_dep_list]; exact Or.inl rfl
  | d :: ds => by
      rw [DepResolver.resolve_dep_list]
      by_cases hmem : d ∈ seen1
      · rw [if_pos hmem]
        exact Or.inr rfl
      · rw [if_neg hmem]
        rcases DepResolver.resolve_single_dichotomy R hres hclosed fuel d
            seen1 (hlst d (List.mem_cons_self d ds)) hnd1 hsub1 hmem hfuel
            with h | h
        · rw [h]
          exact DepResolver.resolve_dep_list_dichotomy R hres hclosed fuel
            ds seen1 (fun x hx => hlst x (List.mem_cons_of_mem d hx)) hnd1
            hsub1 hfuel
        · rw [h]
          exact Or.inr rfl
termination_by (fuel, 1, lst.length)
end

mutual
/-- In an acyclic dependency graph the resolver succeeds: the copied
seen chain never blocks a sibling, and no chain revisits an ancestor. -/
theorem DepResolver.resolve_single_acyclic (R : DepResolver)
    (hres : ∀ k ∈ R.jobs, ∀ dn ∈ (R.store k).job_depnames,
      R.lookup_dep dn ≠ none)
    (hclosed : ∀ dn l, R.lookup_dep dn = some l → ∀ b ∈ l, b ∈ R.jobs)
    (hacyc : ∀ x, ¬ R.path x x)
    (fuel : Nat) (j : String) (seen : List String)
    (hj : j ∈ R.jobs) (hnd : seen.Nodup) (hsub : ∀ s ∈ seen, s ∈ R.jobs)
    (hjn : j ∉ seen) (hfuel : R.jobs.length + 1 ≤ fuel + seen.length)
    (hreach : ∀ z, R.path j z → z ∉ seen) :
    R.resolve_single fuel j seen = .ok () :=
  match fuel with
  | 0 => by
      exfalso
      have h1 : (seen ++ [j]).Nodup :=
        (List.perm_append_singleton j seen).symm.nodup
          (List.nodup_cons.mpr ⟨hjn, hnd⟩)
      have h2 : (seen ++ [j]) ⊆ R.jobs := by
        intro s hs
        rcases List.mem_append.mp hs with h | h
        · exact hsub s h
        · rw [List.mem_singleton.mp h]; exact hj
      have := nodup_subset_length h1 h2
      simp only [List.length_append, List.length_singleton] at this
      omega
  | fuel + 1 => by
      rw [DepResolver.resolve_single]
      refine DepResolver.resolve_depnames_acyclic R hres hclosed hacyc fuel
        ((R.store j).job_depnames) (seen ++ [j]) ?_ ?_ ?_ ?_
      · intro dn hdn
        refine ⟨hres j hj dn hdn, ?_⟩
        intro l hl b hb
        have hedge : R.edge j b := ⟨dn, hdn, l, hl, hb⟩
        refine ⟨hclosed dn l hl b hb, ?_, ?_⟩
        · intro hbs
          rcases List.mem_append.mp hbs with h | h
          · exact hreach b (.single hedge) h
          · refine hacyc j ?_
            have hbj : b = j := List.mem_singleton.mp h
            nth_rewrite 2 [← hbj]
            exact .single hedge
        · intro z hz hzs
          rcases List.mem_append.mp hzs with h | h
          · exact hreach z (.cons hedge hz) h
          · refine hacyc j ?_
            have hzj : z = j := List.mem_singleton.mp h
            nth_rewrite 2 [← hzj]
            exact .cons hedge hz
      · exact (List.perm_append_singleton j seen).symm.nodup
          (List.nodup_cons.mpr ⟨hjn, hnd⟩)
      · intro s hs
        rcases List.mem_append.mp hs with h | h
        · exact hsub s h
        · rw [List.mem_singleton.mp h]; exact hj
      · simp only [List.length_append, List.length_singleton]
        omega
termination_by (fuel, 0, 0)
theorem DepResolver.resolve_depnames_acyclic (R : DepResolver)
    (hres : ∀ k ∈ R.jobs, ∀ dn ∈ (R.store k).job_depnames,
      R.lookup_dep dn ≠ none)
    (hclosed : ∀ dn l, R.lookup_dep dn = some l → ∀ b ∈ l, b ∈ R.jobs)
    (hacyc : ∀ x, ¬ R.path x x)
    (fuel : Nat) (dns : List String) (seen1 : List String)
    (hdns : ∀ dn ∈ dns, R.lookup_dep dn ≠ none
      ∧ ∀ l, R.lookup_dep dn = some l → ∀ b ∈ l, b ∈ R.jobs ∧ b ∉ seen1
        ∧ (∀ z, R.path b z → z ∉ seen1))
    (hnd1 : seen1.Nodup) (hsub1 : ∀ s ∈ seen1, s ∈ R.jobs)
    (hfuel : R.jobs.length + 1 ≤ fuel + seen1.length) :
    R.resolve_depnames fuel dns seen1 = .ok () :=
  match dns with
  | [] => by rw [DepResolver.resolve_depnames]
  | dn :: rest => by
      rw [DepResolver.resolve_depnames]
      cases hl : R.lookup_dep dn with
      | none =>
          exact absurd hl (hdns dn (List.mem_cons_self dn rest)).1
      | some l =>
          dsimp only
          rw [DepResolver.resolve_dep_list_acyclic R hres hclosed hacyc fuel
            l seen1 ((hdns dn (List.mem_cons_self dn rest)).2 l hl) hnd1
            hsub1 hfuel]
          exact DepResolver.resolve_depnames_acyclic R hres hclosed hacyc
            fuel rest seen1
            (fun x hx => hdns x (List.mem_cons_of_mem dn hx)) hnd1 hsub1
            hfuel
termination_by (fuel, 2, dns.length)
theorem DepResolver.resolve_dep_list_acyclic (R : DepResolver)
    (hres : ∀ k ∈ R.jobs, ∀ dn ∈ (R.store k).job_depnames,
      R.lookup_dep dn ≠ none)
    (hclosed : ∀ dn l, R.lookup_dep dn = some l → ∀ b ∈ l, b ∈ R.jobs)
    (hacyc : ∀ x, ¬ R.path x x)
    (fuel : Nat) (lst : List String) (seen1 : List String)
    (hlst : ∀ d ∈ lst, d ∈ R.jobs ∧ d ∉ seen1
      ∧ (∀ z, R.path d z → z ∉ seen1))
    (hnd1 : seen1.Nodup) (hsub1 : ∀ s ∈ seen1, s ∈ R.jobs)
    (hfuel : R.jobs.length + 1 ≤ fuel + seen1.length) :
    R.resolve_dep_list fuel lst seen1 = .ok () :=
  match lst with
  | [] => by rw [DepResolver.resolve_dep_list]
  | d :: ds => by
      rw [DepResolver.resolve_dep_list]
      obtain ⟨hdj, hdn1, hdreach⟩ := hlst d (List.mem_cons_self d ds)
      rw [if_neg hdn1]
      rw [DepResolver.resolve_single_acyclic R hres hclosed hacyc fuel d
        seen1 hdj hnd1 hsub1 hdn1 hfuel hdreach]
      exact DepResolver.resolve_dep_list_acyclic R hres hclosed hacyc fuel
        ds seen1 (fun x hx => hlst x (List.mem_cons_of_mem d hx)) hnd1
        hsub1 hfuel
termination_by (fuel, 1, lst.length)
end

theorem DepResolver.resolve_deps_go_ok (R : DepResolver) :
    ∀ (ks : List String),
      (∀ k ∈ ks, R.resolve_single (R.jobs.length + 1) k [] = .ok ()) →
      R.resolve_deps_go ks = .ok () := by
  intro ks
  induction ks with
  | nil => intro _; rfl
  | cons k rest ih =>
      intro h
      rw [DepResolver.resolve_deps_go, h k (List.mem_cons_self k rest)]
      exact ih (fun x hx => h x (List.mem_cons_of_mem k hx))

theorem DepResolver.resolve_deps_go_circ (R : DepResolver) :
    ∀ (ks : List String),
      (∀ k ∈ ks, R.resolve_single (R.jobs.length + 1) k [] = .ok ()
        ∨ R.resolve_single (R.jobs.length + 1) k []
            = .error .CircularDependencyError) →
      (∃ k ∈ ks, R.resolve_single (R.jobs.length + 1) k [] ≠ .ok ()) →
      R.resolve_deps_go ks = .error .CircularDependencyError := by
  intro ks
  induction ks with
  | nil => intro _ h; obtain ⟨k, hk, _⟩ := h; cases hk
  | cons k rest ih =>
      intro hall hex
      rcases hall k (List.mem_cons_self k rest) with hk | hk
      · rw [DepResolver.resolve_deps_go, hk]
        refine ih (fun x hx => hall x (List.mem_cons_of_mem k hx)) ?_
        obtain ⟨x, hx, hne⟩ := hex
        rcases List.mem_cons.mp hx with h1 | h1
        · exact absurd (h1 ▸ hk) (h1 ▸ hne)
        · exact ⟨x, h1, hne⟩
      · rw [DepResolver.resolve_deps_go, hk]

/-- Acyclicity from a ranking: if every edge strictly decreases a rank,
no node lies on a cycle (used by the C7 witness on a concrete diamond
graph). -/
theorem DepResolver.path_rank (R : DepResolver) (rank : String → Nat)
    (hdesc : ∀ a b, R.edge a b → rank b < rank a) :
    ∀ x, ¬ R.path x x := by
  have haux : ∀ a b, R.path a b → rank b < rank a := by
    intro a b hp
    induction hp with
    | single he => exact hdesc _ _ he
    | cons he _ ih => exact lt_trans ih (hdesc _ _ he)
  intro x hx
  exact lt_irrefl _ (haux x x hx)

/-- Pool-closure of `lookup_dep` follows from the `dep_rules` buckets
referencing only pool jobs (which `add_job` guarantees by
construction). -/
theorem DepResolver.lookup_closed (R : DepResolver)
    (hrules : ∀ p ∈ R.dep_rules, ∀ b ∈ p.2, b ∈ R.jobs) :
    ∀ dn l, R.lookup_dep dn = some l → ∀ b ∈ l, b ∈ R.jobs := by
  intro dn l hl b hb
  unfold DepResolver.lookup_dep at hl
  split at hl
  · cases hl
    rename_i hmem
    rw [List.mem_singleton.mp hb]
    exact hmem
  · cases hf : R.dep_rules.find? (fun p => p.1 == dn) with
    | none => rw [hf] at hl; cases hl
    | some p =>
        rw [hf] at hl
        cases hl
        exact hrules p (List.mem_of_find?_eq_some hf) b hb

/-- C7: with every dependency name resolvable and the pool closed under
resolution (as `add_job` construction guarantees), `resolve_deps()`
terminates and: if the dependency graph has a cycle through a pool job
it raises `CircularDependencyError`; if the graph is acyclic — diamonds
with shared dependencies included — it raises nothing, because each
recursion receives a copy of the seen chain. -/
theorem claim7_circular_dependency (R : DepResolver)
    (hres : ∀ k ∈ R.jobs, ∀ dn ∈ (R.store k).job_depnames,
      R.lookup_dep dn ≠ none)
    (hclosed : ∀ dn l, R.lookup_dep dn = some l → ∀ b ∈ l, b ∈ R.jobs) :
    ((∃ j ∈ R.jobs, R.path j j) →
      R.resolve_deps = .error .CircularDependencyError)
    ∧ ((∀ x, ¬ R.path x x) → R.resolve_deps = .ok ()) := by
  constructor
  · intro ⟨j, hj, hp⟩
    refine DepResolver.resolve_deps_go_circ R R.jobs ?_ ⟨j, hj, ?_⟩
    · intro k hk
      exact DepResolver.resolve_single_dichotomy R hres hclosed _ k []
        hk List.nodup_nil (fun s hs => absurd hs (List.not_mem_nil s))
        (List.not_mem_nil k) (by simp)
    · exact DepResolver.path_not_ok R hp _ []
        (List.mem_append_right [] (List.mem_singleton_self j))
  · intro hacyc
    refine DepResolver.resolve_deps_go_ok R R.jobs ?_
    intro k hk
    exact DepResolver.resolve_single_acyclic R hres hclosed hacyc _ k []
      hk List.nodup_nil (fun s hs => absurd hs (List.not_mem_nil s))
      (List.not_mem_nil k) (by simp)
      (fun z _ hz => absurd hz (List.not_mem_nil z))

/-- C7 witness graph: the two-job cycle `A → B → A`. -/
def c7cycR : DepResolver := {
  store := mkStore [{ job_template with name := "A", job_depnames := ["B"] },
                    { job_template with name := "B", job_depnames := ["A"] }],
  jobs := ["A", "B"],
  dep_rules := [] }

/-- C7 witness graph: the diamond `T → {L, R2} → D`. -/
def c7diaR : DepResolver := {
  store := mkStore
    [{ job_template with name := "T", job_depnames := ["L", "R2"] },
     { job_template with name := "L", job_depnames := ["D"] },
     { job_template with name := "R2", job_depnames := ["D"] },
     { job_template with name := "D" }],
  jobs := ["T", "L", "R2", "D"],
  dep_rules := [] }

theorem mkStore_eq_default (l : List Job) (a : String)
    (h : ∀ j ∈ l, ¬ j.name = a) : mkStore l a = job_template := by
  unfold mkStore
  rw [List.find?_eq_none.mpr]
  · rfl
  · intro j hj
    simpa using h j hj

/-- Topological rank for the diamond graph. -/
def rankDia (s : String) : Nat :=
  if s = "T" then 3 else if s = "L" then 2 else if s = "R2" then 2
  else if s = "D" then 1 else 0

theorem c7dia_desc : ∀ a b, c7diaR.edge a b → rankDia b < rankDia a := by
  intro a b ⟨dn, hdn, l, hl, hb⟩
  by_cases hT : a = "T"
  · subst hT
    have hdn' : dn ∈ ["L", "R2"] := hdn
    rcases List.mem_cons.mp hdn' with h1 | h1
    · subst h1
      have hl' : some ["L"] = some l := hl.symm ▸ rfl
      cases hl'
      have hb' : b = "L" := List.mem_singleton.mp hb
      subst hb'
      decide
    · have h2 : dn = "R2" := List.mem_singleton.mp h1
      subst h2
      have hl' : some ["R2"] = some l := hl.symm ▸ rfl
      cases hl'
      have hb' : b = "R2" := List.mem_singleton.mp hb
      subst hb'
      decide
  · by_cases hL : a = "L"
    · subst hL
      have hdn' : dn ∈ ["D"] := hdn
      have h2 : dn = "D" := List.mem_singleton.mp hdn'
      subst h2
      have hl' : some ["D"] = some l := hl.symm ▸ rfl
      cases hl'
      have hb' : b = "D" := List.mem_singleton.mp hb
      subst hb'
      decide
    · by_cases hR : a = "R2"
      · subst hR
        have hdn' : dn ∈ ["D"] := hdn
        have h2 : dn = "D" := List.mem_singleton.mp hdn'
        subst h2
        have hl' : some ["D"] = some l := hl.symm ▸ rfl
        cases hl'
        have hb' : b = "D" := List.mem_singleton.mp hb
        subst hb'
        decide
      · by_cases hD : a = "D"
        · subst hD
          have hdn' : dn ∈ ([] : List String) := hdn
          cases hdn'
        · have hst : c7diaR.store a = job_template := by
            refine mkStore_eq_default _ a ?_
            intro j hj
            simp only [List.mem_cons, List.not_mem_nil, or_false] at hj
            rcases hj with h | h | h | h <;> subst h <;> intro he <;>
              first
                | exact hT he.symm
                | exact hL he.symm
                | exact hR he.symm
                | exact hD he.symm
          rw [hst] at hdn
          have hdn2 : dn ∈ ([] : List String) := hdn
          cases hdn2

/-- C7 witness: `claim7_circular_dependency` applied to the concrete
cycle `A → B → A` (raises `CircularDependencyError`) and to the concrete
diamond `T → {L, R2} → D` (no error). -/
theorem claim7_witness :
    c7cycR.resolve_deps = .error .CircularDependencyError
    ∧ c7diaR.resolve_deps = .ok () :=
  ⟨(claim7_circular_dependency c7cycR (by decide)
      (c7cycR.lookup_closed (by decide))).1
      ⟨"A", by decide,
        .cons (⟨"B", by decide, ["B"], by decide, by decide⟩ :
            c7cycR.edge "A" "B")
          (.single (⟨"A", by decide, ["A"], by decide, by decide⟩ :
            c7cycR.edge "B" "A"))⟩,
    (claim7_circular_dependency c7diaR (by decide)
      (c7diaR.lookup_closed (by decide))).2
      (c7diaR.path_rank rankDia c7dia_desc)⟩

/-! ## Remote-context serialization (`pcvs/orchestration/runner.py`,
`RemoteContext.save_input_to_disk` / `load_input_from_disk`, with
`Test.to_minimal_json` / `Test.from_minimal_json` from
`pcvs/testing/test.py`)

JSON values are embedded as `JVal`; the standard-library `json` module
is abstracted: `json.dumps` and `json.loads` appear as function
parameters (`json.dumps` then `json.load` over a file is their
composition on the file's string content).  `TestMinimal` is the
`_jid`/`_invocation_cmd` slice of `Test` — the only attributes
`to_minimal_json` reads and `from_minimal_json` writes; both hold
whatever (dynamically typed) value was assigned, so they are `JVal`s,
with `.null` for Python `None`. -/
inductive JVal where
  | str (s : String)
  | num (n : Int)
  | bool (b : Bool)
  | null
  | obj (fields : List (String × JVal))
  | arr (items : List JVal)

/-- Python exceptions raised along this path. -/
inductive PyErr where
  | assertionError
  | jsonDecodeError
  | attributeError
  | typeError
deriving DecidableEq, Repr

structure TestMinimal where
  jid : JVal
  invocation_cmd : JVal

/-- `Test.to_minimal_json`: `{"jid": self._jid,
"invocation_cmd": self._invocation_cmd}`. -/
def Test.to_minimal_json (t : TestMinimal) : JVal :=
  .obj [("jid", t.jid), ("invocation_cmd", t.invocation_cmd)]

/-- Python `dict.get(key, default)`. -/
def dict_get (fields : List (String × JVal)) (k : String) (dflt : JVal) :
    JVal :=
  match fields.find? (fun p => p.1 == k) with
  | some p => p.2
  | none => dflt

/-- `Test.from_minimal_json(jsonstr)`: `assert isinstance(jsonstr, str)`
— an `AssertionError` for any non-string argument — then
`json.loads(jsonstr)` and the two `.get` assignments (`.get` on a
non-dict raises `AttributeError`). -/
def Test.from_minimal_json (json_loads : String → Option JVal)
    (t : TestMinimal) (jsonstr : JVal) : Except PyErr TestMinimal :=
  match jsonstr with
  | .str s =>
    match json_loads s with
    | none => .error .jsonDecodeError
    | some (.obj fields) =>
        .ok { t with
          invocation_cmd := dict_get fields "invocation_cmd"
            (.str "exit 1")
          jid := dict_get fields "jid" (.str "-1") }
    | some _ => .error .attributeError
  | _ => .error .assertionError

/-- `RemoteContext.save_input_to_disk(jobs)`: the `input.json` content,
`json.dumps(list(map(lambda x: x.to_minimal_json(), jobs.content)))`
(the Set's `content` list is passed in directly). -/
def RemoteContext.save_input_to_disk (json_dumps : JVal → String)
    (content : List TestMinimal) : String :=
  json_dumps (.arr (content.map Test.to_minimal_json))

/-- A fresh `Test()` as `load_input_from_disk` builds it: `_jid` is the
hash of the default fully-qualified name, `_invocation_cmd` is `None`.
The exact default jid never matters: `from_minimal_json` either
overwrites both fields or fails. -/
def Test.fresh_minimal : TestMinimal :=
  ⟨.str "default-jid", .null⟩

/-- The `for job in data` loop of `load_input_from_disk`: build a fresh
`Test` from each parsed element, propagating the first exception. -/
def RemoteContext.load_input_items (json_loads : String → Option JVal) :
    List JVal → Except PyErr (List TestMinimal)
  | [] => .ok []
  | v :: vs =>
    match Test.from_minimal_json json_loads Test.fresh_minimal v with
    | .error e => .error e
    | .ok t =>
      match RemoteContext.load_input_items json_loads vs with
      | .error e => .error e
      | .ok ts => .ok (t :: ts)

/-- `RemoteContext.load_input_from_disk()`: parse `input.json` and build
a Set from its elements.  Iterating a parsed value that is not a JSON
array cannot arise from `save_input_to_disk` output; it is folded into
`typeError`. -/
def RemoteContext.load_input_from_disk (json_loads : String → Option JVal)
    (file : String) : Except PyErr (List TestMinimal) :=
  match json_loads file with
  | none => .error .jsonDecodeError
  | some (.arr data) => RemoteContext.load_input_items json_loads data
  | some _ => .error .typeError

/-- C4 (code evaluation at the failing input): `save_input_to_disk`
writes the JSON dump of an array whose every element is a JSON *dict*
(`to_minimal_json` output); but `load_input_from_disk` passes each
parsed element — a dict, not a string — to `from_minimal_json`, whose
`assert isinstance(jsonstr, str)` then raises `AssertionError`.  So for
every json library (any `loads` that parses the written file back to
that array) and every non-empty Set, the save/load round trip raises
instead of returning jobs, contradicting the claimed
jid/invocation_cmd-preserving round trip. -/
theorem claim4_load_input_asserts :
    (∀ (json_dumps : JVal → String) (content : List TestMinimal),
      RemoteContext.save_input_to_disk json_dumps content
        = json_dumps (.arr (content.map Test.to_minimal_json)))
    ∧ (∀ t : TestMinimal, ∃ fields, Test.to_minimal_json t = .obj fields)
    ∧ (∀ (json_loads : String → Option JVal) (file : String)
        (fields : List (String × JVal)) (vs : List JVal),
        json_loads file = some (.arr (.obj fields :: vs)) →
        RemoteContext.load_input_from_disk json_loads file
          = .error .assertionError) := by
  refine ⟨fun _ _ => rfl, fun t => ⟨_, rfl⟩, ?_⟩
  intro json_loads file fields vs hparse
  rw [RemoteContext.load_input_from_disk, hparse]
  rfl

/-- C4 witness: `claim4_load_input_asserts` applied to a one-element
input whose parse is the array `[{"jid": "j1", "invocation_cmd":
"cmd"}]` — exactly what saving a one-job Set writes. -/
theorem claim4_witness :
    RemoteContext.load_input_from_disk
      (fun _ => some (.arr [Test.to_minimal_json
        ⟨.str "j1", .str "cmd"⟩])) "input.json"
      = .error .assertionError :=
  claim4_load_input_asserts.2.2
    (fun _ => some (.arr [Test.to_minimal_json ⟨.str "j1", .str "cmd"⟩]))
    "input.json" [("jid", .str "j1"), ("invocation_cmd", .str "cmd")] []
    rfl

/-! ## Local execution (`RunnerAdapter.local_exec`) and result
evaluation (`Test.evaluate`)

The child process and the wall clock are the environment: `poll k` is
the outcome of the k-th 1-second `p.communicate(timeout=1)` (`some`
output/returncode when the process has ended, `none` for
`TimeoutExpired`); `elapsed k` is `time.time() - start` read after the
k-th timeout, `elapsed_done k` the same read on normal completion;
`killed_output k` is what `p.communicate()` returns after the
process group got SIGTERM; `cancelled k` is the negation of
`RunnerAdapter.sched_in_progress` as read in iteration k. -/
structure ProcEnv where
  poll : Nat → Option (String × Int)
  elapsed : Nat → Rat
  elapsed_done : Nat → Rat
  killed_output : Nat → String
  cancelled : Nat → Bool

/-- `Test.hard_timeout`: the validation field when truthy (Python: a
value that is `None` or `0` falls back to
`GlobalConfig.root["validation"]["hard_timeout"]`). -/
def Job.hard_timeout (cfg_hard : Rat) (j : Job) : Rat :=
  match j.hard_timeout_field with
  | some v => if v = 0 then cfg_hard else v
  | none => cfg_hard

/-- One job's `while True` poll loop in `RunnerAdapter.local_exec`,
with iteration counter `k` and loop gas (the source loop is unbounded;
theorems quantify over the gas).  `.done` carries the job after the
post-loop `save_status(EXECUTED)` and `save_raw_run(...)`; `.aborted`
is the cancellation path, which kills the group and returns without
recording anything; `.still_polling` means the gas ran out with the
process still alive. -/
inductive LocalRun where
  | still_polling
  | aborted
  | done (j : Job)

def RunnerAdapter.local_exec_poll (env : ProcEnv) (hard_t : Rat)
    (j : Job) : Nat → Nat → LocalRun
  | 0, _ => .still_polling
  | fuel + 1, k =>
    match env.poll k with
    | some (out, rc) =>
        -- process ended: record wall time, exit code, combined output
        .done ((j.save_status .EXECUTED).save_raw_run (some out) (some rc)
          (some (env.elapsed_done k)) false)
    | none =>
        let run_time := env.elapsed k
        if hard_t < run_time then
          -- hard timeout: SIGTERM the group, keep captured output,
          -- clamp the time to the timeout, flag it; rc stays None
          .done ((j.save_status .EXECUTED).save_raw_run
            (some (env.killed_output k)) none (some hard_t) true)
        else if env.cancelled k then
          -- aborting runs: SIGKILL the group and return
          .aborted
        else
          RunnerAdapter.local_exec_poll env hard_t j fuel (k + 1)

/-- The matcher loop of `Test.evaluate`, from a `SUCCESS` running
state: `re.search` is the environment parameter `research`. -/
def Test.eval_matchers (research : String → String → Bool) (out : String) :
    List (String × Bool) → TestState
  | [] => .SUCCESS
  | (expr, expected) :: rest =>
    let found := research expr out
    if (found && !expected) || (!found && expected) then .FAILURE
    else Test.eval_matchers research out rest

/-- `Test.evaluate`: the hard-timeout flag decides first; then return
code, matchers (`research` = `re.search`), the analysis plugin
(`plugin_res` = the `TEST_RESULT_EVAL` result, which also overwrites
`_soft_timeout`), the validation script (`script_rc` = its return
code, 42 on launch failure), and finally the soft-timeout check. -/
def Test.evaluate (research : String → String → Bool)
    (plugin_res : Option (TestState × Option Rat)) (script_rc : Int)
    (j : Job) : Job :=
  if j.has_hard_timeout then { j with state := .HARD_TIMEOUT }
  else
    let state1 := if j.expect_rc ≠ j.rc then TestState.FAILURE
      else TestState.SUCCESS
    let state2 := match state1, j.matchers with
      | .SUCCESS, some ms => Test.eval_matchers research j.output ms
      | s, _ => s
    let r3 : TestState × Option Rat := match state2, j.analysis with
      | .SUCCESS, some _ =>
        (match plugin_res with
          | some res => res
          | none => (state2, j.soft_timeout_field))
      | s, _ => (s, j.soft_timeout_field)
    let state4 := match r3.1, j.script with
      | .SUCCESS, some _ =>
        if j.expect_rc ≠ script_rc then TestState.FAILURE else r3.1
      | s, _ => s
    let state5 := match state4, r3.2 with
      | .SUCCESS, some soft =>
        if soft < j.exectime then TestState.SOFT_TIMEOUT else state4
      | s, _ => s
    { j with state := state5, soft_timeout_field := r3.2 }

/-- C9: when a local job's process outlives its hard timeout — every
poll reports `TimeoutExpired`, the run isn't cancelled, and the elapsed
time eventually exceeds `hard_timeout` — the runner terminates the
process group and records the run with the hard-timeout flag, state
`EXECUTED`, the elapsed time stored equal to exactly the `hard_timeout`
value, and the return code untouched; `evaluate()` then sets the state
to `HARD_TIMEOUT` regardless of return code, matchers, analysis plugin
or validation script. -/
theorem claim9_hard_timeout :
    (∀ (env : ProcEnv) (hard_t : Rat) (j : Job) (fuel k : Nat),
      (∀ i, env.poll i = none) →
      (∀ i, env.cancelled i = false) →
      (∃ i, k ≤ i ∧ i < k + fuel ∧ hard_t < env.elapsed i) →
      ∃ out, RunnerAdapter.local_exec_poll env hard_t j fuel k
        = .done ((j.save_status .EXECUTED).save_raw_run (some out) none
            (some hard_t) true)
        ∧ ((j.save_status .EXECUTED).save_raw_run (some out) none
            (some hard_t) true).exectime = hard_t
        ∧ ((j.save_status .EXECUTED).save_raw_run (some out) none
            (some hard_t) true).has_hard_timeout = true
        ∧ ((j.save_status .EXECUTED).save_raw_run (some out) none
            (some hard_t) true).state = .EXECUTED)
    ∧ (∀ (research : String → String → Bool)
        (plugin_res : Option (TestState × Option Rat)) (script_rc : Int)
        (j : Job), j.has_hard_timeout = true →
        (Test.evaluate research plugin_res script_rc j).state
          = .HARD_TIMEOUT) := by
  constructor
  · intro env hard_t j fuel k hpoll hcan hex
    induction fuel generalizing k with
    | zero =>
        obtain ⟨i, h1, h2, _⟩ := hex
        omega
    | succ fuel ih =>
        rw [RunnerAdapter.local_exec_poll, hpoll k]
        by_cases hrt : hard_t < env.elapsed k
        · exact ⟨env.killed_output k, by rw [if_pos hrt], rfl, rfl, rfl⟩
        · rw [if_neg hrt, hcan k, if_neg (by simp)]
          refine ih (k + 1) ?_
          obtain ⟨i, h1, h2, h3⟩ := hex
          refine ⟨i, ?_, by omega, h3⟩
          rcases Nat.eq_or_lt_of_le h1 with h | h
          · exact absurd (h ▸ h3) hrt
          · omega
  · intro research plugin_res script_rc j hht
    rw [Test.evaluate, if_pos hht]

/-- C9 witness: a process that never finishes under a 3-second hard
timeout, polled with 5 gas from iteration 0 with the clock reading `k`
seconds at poll `k`; and the evaluation of a flagged job with a
mismatched return code and a matcher environment that never matches. -/
theorem claim9_witness :
    (∃ out, RunnerAdapter.local_exec_poll
        ⟨fun _ => none, fun k => (k : Rat), fun k => (k : Rat),
          fun _ => "", fun _ => false⟩ 3 job_template 5 0
      = .done ((job_template.save_status .EXECUTED).save_raw_run
          (some out) none (some 3) true)
      ∧ ((job_template.save_status .EXECUTED).save_raw_run (some out)
          none (some 3) true).exectime = 3
      ∧ ((job_template.save_status .EXECUTED).save_raw_run (some out)
          none (some 3) true).has_hard_timeout = true
      ∧ ((job_template.save_status .EXECUTED).save_raw_run (some out)
          none (some 3) true).state = .EXECUTED)
    ∧ (Test.evaluate (fun _ _ => false) none 5
        { job_template with has_hard_timeout := true, rc := 7 }).state
      = .HARD_TIMEOUT :=
  ⟨claim9_hard_timeout.1
      ⟨fun _ => none, fun k => (k : Rat), fun k => (k : Rat),
        fun _ => "", fun _ => false⟩ 3 job_template 5 0
      (fun _ => rfl) (fun _ => rfl) ⟨4, by omega, by omega, by norm_num⟩,
    claim9_hard_timeout.2 (fun _ _ => false) none 5
      { job_template with has_hard_timeout := true, rc := 7 } rfl⟩
